import Mathlib

/-!
Verification development for the post-processing layer of a phrase-indexed
question-answering pipeline (source file: `post.py`).

Shallow embedding conventions:
* Python floats (model scores, logits) are modelled as rationals (`ℚ`): every
  operation the code performs on them here is ordering, copying, negation and
  elementary field arithmetic, which the rational model reflects exactly.
* NumPy arrays are modelled as Lean lists; 2-D arrays as lists of rows.
  NumPy arrays are rectangular, so the shape of a 2-D array is taken to be
  (number of rows, length of the first row).
* Python dicts keyed by ids are modelled as functions from the key type.
* Python string operations (`find`, `replace`, `strip`, `split`, slicing) are
  re-implemented structurally over `List Char` so that they compute by kernel
  reduction; indices are code-point indices exactly as in Python.
* Fallible code (calls that raise `TypeError`/`IndexError`/failed `assert`) is
  modelled with `Option`: `none` stands for the raised exception.
* The external `tokenization.BasicTokenizer(do_lower_case).tokenize` collaborator
  is a parameter `tokenize : Bool → String → List String`; the `tokenizer`
  argument of `_improve_answer_span` is likewise a parameter `String → List String`.
* Slice bounds such as `[1 : len(tokens) - 1]` are modelled with truncated
  (natural-number) subtraction; the degenerate Python negative-index reading
  for windows with fewer than two tokens is outside the modelled domain.
-/

namespace Post

/-! ## Python string primitives (structural re-implementations) -/

/-- Python `str.find` (scan for the first occurrence of `needle`, `-1` if absent),
running index carried in `i`. -/
def str_find_go (needle : List Char) : Nat → List Char → Int
  | i, [] => if needle.isPrefixOf ([] : List Char) then (i : Int) else -1
  | i, c :: rest =>
    if needle.isPrefixOf (c :: rest) then (i : Int) else str_find_go needle (i + 1) rest

/-- Python `hay.find(needle)`. -/
def py_find (hay needle : String) : Int :=
  str_find_go needle.toList 0 hay.toList

/-- Python `s.replace(pat, rep)` for a non-empty `pat`: left-to-right,
non-overlapping.  `fuel` bounds the scan (called with the string length). -/
def str_replace_go (pat rep : List Char) : Nat → List Char → List Char
  | _, [] => []
  | 0, s => s
  | Nat.succ fuel, c :: rest =>
    if pat ≠ [] ∧ pat.isPrefixOf (c :: rest) then
      rep ++ str_replace_go pat rep fuel ((c :: rest).drop pat.length)
    else
      c :: str_replace_go pat rep fuel rest

/-- Python `s.replace(pat, rep)` (for the non-empty patterns used by the code). -/
def py_replace (s pat rep : String) : String :=
  ⟨str_replace_go pat.toList rep.toList s.toList.length s.toList⟩

/-- Python `s.strip()`. -/
def py_strip (s : String) : String :=
  ⟨((s.toList.dropWhile Char.isWhitespace).reverse.dropWhile Char.isWhitespace).reverse⟩

/-- Python `s.split()` helper: split on whitespace runs, discarding empty chunks;
`cur` is the (reversed) chunk being accumulated. -/
def py_split_go : List Char → List Char → List String
  | [], cur => if cur = [] then [] else [⟨cur.reverse⟩]
  | c :: rest, cur =>
    if c.isWhitespace then
      if cur = [] then py_split_go rest [] else ⟨cur.reverse⟩ :: py_split_go rest []
    else
      py_split_go rest (c :: cur)

/-- Python `s.split()` (no separator argument). -/
def py_split (s : String) : List String :=
  py_split_go s.toList []

/-- Python `" ".join(xs)`. -/
def py_join (xs : List String) : String :=
  String.intercalate " " xs

/-- Python `s[a:b]` for non-negative bounds. -/
def py_slice (s : String) (a b : Nat) : String :=
  ⟨(s.toList.drop a).take (b - a)⟩

/-- Python `len(s)` (code points). -/
def py_len (s : String) : Nat :=
  s.toList.length

/-! ## Quantization codec (`float_to_int8` / `int8_to_float`) -/

/-- `np.round` on a scalar: round half to even. -/
def np_round (x : ℚ) : Int :=
  let f := Int.floor x
  let r := x - (f : ℚ)
  if r < 1 / 2 then f
  else if 1 / 2 < r then f + 1
  else if f % 2 = 0 then f else f + 1

/-- `np.clip(x, lo, hi)` on a scalar (`lo ≤ hi` on every call site). -/
def np_clip (x lo hi : ℚ) : ℚ :=
  min (max x lo) hi

/-- `.astype(np.int8)` on an integer value: wrap into `[-128, 127]`. -/
def np_astype_int8 (z : Int) : Int :=
  (z + 128) % 256 - 128

/-- `float_to_int8(num, offset, factor, keep_zeros)` on a scalar. -/
def float_to_int8 (num offset factor : ℚ) (keep_zeros : Bool) : Int :=
  let out := (num - offset) * factor
  let out := np_clip out (-128) 127
  let out := if keep_zeros then out * (if num ≠ 0 then 1 else 0) else out
  np_astype_int8 (np_round out)

/-- `int8_to_float(num, offset, factor, keep_zeros)` on a scalar. -/
def int8_to_float (num : Int) (offset factor : ℚ) (keep_zeros : Bool) : ℚ :=
  if !keep_zeros then (num : ℚ) / factor + offset
  else ((num : ℚ) / factor + offset) * (if num ≠ 0 then 1 else 0)

theorem np_round_sub_abs_le (y : ℚ) : |(np_round y : ℚ) - y| ≤ 1 / 2 := by
  have hfl : (Int.floor y : ℚ) ≤ y := Int.floor_le y
  have hfu : y < (Int.floor y : ℚ) + 1 := Int.lt_floor_add_one y
  unfold np_round
  set f := Int.floor y with hf
  by_cases h1 : y - (f : ℚ) < 1 / 2
  · rw [if_pos h1, abs_le]
    constructor <;> linarith
  · rw [if_neg h1]
    by_cases h2 : 1 / 2 < y - (f : ℚ)
    · rw [if_pos h2, abs_le]
      push_cast
      constructor <;> linarith
    · have heq : y - (f : ℚ) = 1 / 2 := le_antisymm (not_lt.mp h2) (not_lt.mp h1)
      rw [if_neg h2]
      by_cases h3 : f % 2 = 0 <;>
        [rw [if_pos h3]; rw [if_neg h3]] <;> rw [abs_le] <;> push_cast <;>
        constructor <;> linarith

theorem np_round_le_of_le (y : ℚ) (b : Int) (hb : y ≤ (b : ℚ)) : np_round y ≤ b := by
  have habs := np_round_sub_abs_le y
  rw [abs_le] at habs
  have h2 : (np_round y : ℚ) < ((b + 1 : Int) : ℚ) := by push_cast; linarith [habs.2]
  have h3 : np_round y < b + 1 := by exact_mod_cast h2
  omega

theorem le_np_round_of_le (y : ℚ) (b : Int) (hb : (b : ℚ) ≤ y) : b ≤ np_round y := by
  have habs := np_round_sub_abs_le y
  rw [abs_le] at habs
  have h2 : (b : ℚ) < ((np_round y + 1 : Int) : ℚ) := by push_cast; linarith [habs.1]
  have h3 : b < np_round y + 1 := by exact_mod_cast h2
  omega

theorem np_astype_int8_id (z : Int) (hlo : -128 ≤ z) (hhi : z ≤ 127) :
    np_astype_int8 z = z := by
  unfold np_astype_int8
  omega

/-- C2: for every value `x`, every offset, and every factor `> 0` such that
`(x - offset) * factor` lies inside the clip bounds `[-128, 127]`, decoding
`float_to_int8(x, offset, factor)` with `int8_to_float` recovers `x` to within
one quantization step `1 / factor`. -/
theorem float_to_int8_round_trip (x offset factor : ℚ) (hf : 0 < factor)
    (hlo : -128 ≤ (x - offset) * factor) (hhi : (x - offset) * factor ≤ 127) :
    |int8_to_float (float_to_int8 x offset factor false) offset factor false - x| ≤ 1 / factor := by
  set y := (x - offset) * factor with hy
  have hclip : np_clip y (-128) 127 = y := by
    unfold np_clip
    rw [max_eq_left (by linarith), min_eq_left (by linarith)]
  have hrange_lo : -128 ≤ np_round y := le_np_round_of_le y (-128) (by exact_mod_cast hlo)
  have hrange_hi : np_round y ≤ 127 := np_round_le_of_le y 127 (by exact_mod_cast hhi)
  have henc : float_to_int8 x offset factor false = np_round y := by
    unfold float_to_int8
    simp only [Bool.false_eq_true, if_false, ← hy, hclip]
    exact np_astype_int8_id _ hrange_lo hrange_hi
  rw [henc]
  unfold int8_to_float
  simp only [Bool.not_false, if_true]
  have hxy : x = y / factor + offset := by
    field_simp [hy]
  have hstep : |(np_round y : ℚ) - y| ≤ 1 / 2 := np_round_sub_abs_le y
  have hfactor_ne : factor ≠ 0 := ne_of_gt hf
  have hrw : (np_round y : ℚ) / factor + offset - x = ((np_round y : ℚ) - y) / factor := by
    rw [hxy]; field_simp
  rw [hrw, abs_div, abs_of_pos hf]
  have habs1 : |(np_round y : ℚ) - y| ≤ 1 := hstep.trans (by norm_num)
  gcongr

/-- Witness for C2 at `x = 3`, `offset = 0`, `factor = 2`. -/
theorem float_to_int8_round_trip_witness :
    |int8_to_float (float_to_int8 3 0 2 false) 0 2 false - 3| ≤ 1 / 2 := by
  have h := float_to_int8_round_trip 3 0 2 (by norm_num) (by norm_num) (by norm_num)
  simpa using h

/-! ## `_check_is_max_context` -/

/-- A sliding-window document span (`doc_span` namedtuple: `start`, `length`). -/
structure DocSpan where
  start : Nat
  length : Nat
deriving DecidableEq, Repr

/-- `end = doc_span.start + doc_span.length - 1` (Python integer arithmetic). -/
def span_end (doc_span : DocSpan) : Int :=
  (doc_span.start : Int) + doc_span.length - 1

/-- The span covers `position`: neither `position < doc_span.start` nor
`position > end` holds. -/
def span_contains (doc_span : DocSpan) (position : Nat) : Prop :=
  doc_span.start ≤ position ∧ (position : Int) ≤ span_end doc_span

instance (doc_span : DocSpan) (position : Nat) :
    Decidable (span_contains doc_span position) := by
  unfold span_contains; infer_instance

/-- `score = min(num_left_context, num_right_context) + 0.01 * doc_span.length`. -/
def span_score (doc_span : DocSpan) (position : Nat) : ℚ :=
  min ((position : ℚ) - (doc_span.start : ℚ)) (((span_end doc_span : Int) : ℚ) - (position : ℚ))
    + 1 / 100 * (doc_span.length : ℚ)

/-- Accumulator step of the `_check_is_max_context` loop: the running
`(best_score, best_span_index)` pair after seeing one enumerated span. -/
def best_span_step (position : Nat) (best : Option (ℚ × Nat)) (p : Nat × DocSpan) :
    Option (ℚ × Nat) :=
  if span_contains p.2 position then
    let score := span_score p.2 position
    match best with
    | none => some (score, p.1)
    | some (bs, bi) => if score > bs then some (score, p.1) else some (bs, bi)
  else best

/-- The `(best_score, best_span_index)` state after the whole loop. -/
def best_span_state (position : Nat) (l : List (Nat × DocSpan)) (best : Option (ℚ × Nat)) :
    Option (ℚ × Nat) :=
  l.foldl (best_span_step position) best

/-- `_check_is_max_context(doc_spans, cur_span_index, position)`. -/
def _check_is_max_context (doc_spans : List DocSpan) (cur_span_index : Nat) (position : Nat) :
    Bool :=
  decide ((best_span_state position doc_spans.enum none).map (·.2) = some cur_span_index)

/-- The spec-side arg-max property: `k` indexes a span containing `position`,
every earlier span containing `position` scores strictly less, and no span
containing `position` scores more (so `k` is the earliest arg-max). -/
def is_best_span (doc_spans : List DocSpan) (position : Nat) (k : Nat) : Prop :=
  k < doc_spans.length ∧ span_contains (doc_spans.getD k ⟨0, 0⟩) position ∧
  (∀ j, j < k → span_contains (doc_spans.getD j ⟨0, 0⟩) position →
    span_score (doc_spans.getD j ⟨0, 0⟩) position < span_score (doc_spans.getD k ⟨0, 0⟩) position) ∧
  (∀ j, j < doc_spans.length → span_contains (doc_spans.getD j ⟨0, 0⟩) position →
    span_score (doc_spans.getD j ⟨0, 0⟩) position ≤ span_score (doc_spans.getD k ⟨0, 0⟩) position)

theorem is_best_span_unique (doc_spans : List DocSpan) (position : Nat) (k₁ k₂ : Nat)
    (h₁ : is_best_span doc_spans position k₁) (h₂ : is_best_span doc_spans position k₂) :
    k₁ = k₂ := by
  rcases h₁ with ⟨hk₁, hc₁, hs₁, hw₁⟩
  rcases h₂ with ⟨hk₂, hc₂, hs₂, hw₂⟩
  rcases lt_trichotomy k₁ k₂ with h | h | h
  · have := hs₂ k₁ h hc₁
    have := hw₁ k₂ hk₂ hc₂
    linarith
  · exact h
  · have := hs₁ k₂ h hc₂
    have := hw₂ k₁ hk₁ hc₁
    linarith

theorem List_getD_mem {α : Type} (l : List α) (k : Nat) (d : α) (h : k < l.length) :
    l.getD k d ∈ l := by
  rw [List.getD_eq_getElem l d h]
  exact List.getElem_mem h

theorem List_getD_append_left {α : Type} (l₁ l₂ : List α) (d : α) (k : Nat)
    (h : k < l₁.length) : (l₁ ++ l₂).getD k d = l₁.getD k d := by
  rw [List.getD_eq_getElem _ d (by simp; omega), List.getD_eq_getElem _ d h]
  exact List.getElem_append_left h

theorem List_getD_append_last {α : Type} (l : List α) (x : α) (d : α) :
    (l ++ [x]).getD l.length d = x := by
  rw [List.getD_eq_getElem _ d (by simp)]
  simp

theorem enumFrom_append_singleton {α : Type} (l : List α) (x : α) (n : Nat) :
    (l ++ [x]).enumFrom n = l.enumFrom n ++ [(n + l.length, x)] := by
  induction l generalizing n with
  | nil => simp
  | cons y ys ih =>
    simp only [List.cons_append, List.enumFrom_cons, ih (n + 1), List.cons_append,
      List.length_cons]
    have : n + 1 + ys.length = n + (ys.length + 1) := by omega
    rw [this]

theorem enum_append_singleton {α : Type} (l : List α) (x : α) :
    (l ++ [x]).enum = l.enum ++ [(l.length, x)] := by
  have := enumFrom_append_singleton l x 0
  simpa [List.enum] using this

theorem best_span_step_none_pos (position n : Nat) (s : DocSpan)
    (hc : span_contains s position) :
    best_span_step position none (n, s) = some (span_score s position, n) := by
  simp [best_span_step, hc]

theorem best_span_step_not_contains (position n : Nat) (s : DocSpan) (best : Option (ℚ × Nat))
    (hc : ¬ span_contains s position) :
    best_span_step position best (n, s) = best := by
  simp [best_span_step, hc]

theorem best_span_step_some_gt (position n bi : Nat) (s : DocSpan) (bs : ℚ)
    (hc : span_contains s position) (hgt : span_score s position > bs) :
    best_span_step position (some (bs, bi)) (n, s) = some (span_score s position, n) := by
  simp [best_span_step, hc, hgt]

theorem best_span_step_some_le (position n bi : Nat) (s : DocSpan) (bs : ℚ)
    (hc : span_contains s position) (hgt : ¬ span_score s position > bs) :
    best_span_step position (some (bs, bi)) (n, s) = some (bs, bi) := by
  simp [best_span_step, hc, hgt]

/-- Characterization of the loop state over the enumerated span list. -/
theorem best_span_state_spec (position : Nat) (doc_spans : List DocSpan) :
    (best_span_state position doc_spans.enum none = none ∧
      ∀ s ∈ doc_spans, ¬ span_contains s position) ∨
    (∃ bi, best_span_state position doc_spans.enum none =
        some (span_score (doc_spans.getD bi ⟨0, 0⟩) position, bi) ∧
      is_best_span doc_spans position bi) := by
  induction doc_spans using List.reverseRecOn with
  | nil =>
    left
    constructor
    · rfl
    · intro s hs; cases hs
  | append_singleton ds s ih =>
    have eqlt : ∀ j, j < ds.length → (ds ++ [s]).getD j ⟨0, 0⟩ = ds.getD j ⟨0, 0⟩ :=
      fun j hj => List_getD_append_left ds [s] ⟨0, 0⟩ j hj
    have eqn : (ds ++ [s]).getD ds.length ⟨0, 0⟩ = s := List_getD_append_last ds s ⟨0, 0⟩
    have hlen : (ds ++ [s]).length = ds.length + 1 := by simp
    rw [enum_append_singleton]
    unfold best_span_state at ih ⊢
    rw [List.foldl_append]
    rcases ih with ⟨hnone, hall⟩ | ⟨bi, hsome, hbest⟩
    · rw [hnone]
      by_cases hc : span_contains s position
      · right
        refine ⟨ds.length, ?_, ?_, ?_, ?_, ?_⟩
        · rw [List.foldl_cons, List.foldl_nil, best_span_step_none_pos position ds.length s hc, eqn]
        · omega
        · rw [eqn]; exact hc
        · intro j hj hcj
          rw [eqlt j hj] at hcj
          exact absurd hcj (hall _ (List_getD_mem ds j ⟨0, 0⟩ hj))
        · intro j hj hcj
          rcases Nat.lt_or_ge j ds.length with hj' | hj'
          · rw [eqlt j hj'] at hcj
            exact absurd hcj (hall _ (List_getD_mem ds j ⟨0, 0⟩ hj'))
          · have hje : j = ds.length := by omega
            subst hje
            exact le_refl _
      · left
        refine ⟨by rw [List.foldl_cons, List.foldl_nil,
          best_span_step_not_contains position ds.length s none hc], ?_⟩
        intro t ht
        rcases List.mem_append.mp ht with ht | ht
        · exact hall t ht
        · simp only [List.mem_singleton] at ht
          subst ht
          exact hc
    · rw [hsome]
      rcases hbest with ⟨hbi, hcbi, hstrict, hweak⟩
      by_cases hc : span_contains s position
      · by_cases hgt : span_score s position > span_score (ds.getD bi ⟨0, 0⟩) position
        · right
          refine ⟨ds.length, ?_, ?_, ?_, ?_, ?_⟩
          · rw [List.foldl_cons, List.foldl_nil,
              best_span_step_some_gt position ds.length bi s _ hc hgt, eqn]
          · omega
          · rw [eqn]; exact hc
          · intro j hj hcj
            rw [eqlt j hj] at hcj ⊢
            rw [eqn]
            exact lt_of_le_of_lt (hweak j hj hcj) hgt
          · intro j hj hcj
            rcases Nat.lt_or_ge j ds.length with hj' | hj'
            · rw [eqlt j hj'] at hcj ⊢
              rw [eqn]
              exact le_of_lt (lt_of_le_of_lt (hweak j hj' hcj) hgt)
            · have hje : j = ds.length := by omega
              subst hje
              exact le_refl _
        · right
          refine ⟨bi, ?_, ?_, ?_, ?_, ?_⟩
          · rw [List.foldl_cons, List.foldl_nil,
              best_span_step_some_le position ds.length bi s _ hc hgt, eqlt bi hbi]
          · omega
          · rw [eqlt bi hbi]; exact hcbi
          · intro j hj hcj
            rw [eqlt j (lt_trans hj hbi)] at hcj ⊢
            rw [eqlt bi hbi]
            exact hstrict j hj hcj
          · intro j hj hcj
            rw [eqlt bi hbi]
            rcases Nat.lt_or_ge j ds.length with hj' | hj'
            · rw [eqlt j hj'] at hcj ⊢
              exact hweak j hj' hcj
            · have hje : j = ds.length := by omega
              subst hje
              rw [eqn] at hcj ⊢
              exact le_of_not_lt hgt
      · right
        refine ⟨bi, ?_, ?_, ?_, ?_, ?_⟩
        · rw [List.foldl_cons, List.foldl_nil,
            best_span_step_not_contains position ds.length s _ hc, eqlt bi hbi]
        · omega
        · rw [eqlt bi hbi]; exact hcbi
        · intro j hj hcj
          rw [eqlt j (lt_trans hj hbi)] at hcj ⊢
          rw [eqlt bi hbi]
          exact hstrict j hj hcj
        · intro j hj hcj
          rw [eqlt bi hbi]
          rcases Nat.lt_or_ge j ds.length with hj' | hj'
          · rw [eqlt j hj'] at hcj ⊢
            exact hweak j hj' hcj
          · have hje : j = ds.length := by omega
            subst hje
            rw [eqn] at hcj
            exact absurd hcj hc

/-- C4: `_check_is_max_context` returns `true` exactly when `cur_span_index` is
the earliest arg-max, over the spans containing `position`, of
`min(left_context, right_context) + 0.01 * span_length`. -/
theorem check_is_max_context_iff (doc_spans : List DocSpan) (cur_span_index position : Nat) :
    _check_is_max_context doc_spans cur_span_index position = true ↔
      is_best_span doc_spans position cur_span_index := by
  unfold _check_is_max_context
  rw [decide_eq_true_iff]
  rcases best_span_state_spec position doc_spans with ⟨hnone, hall⟩ | ⟨bi, hsome, hbest⟩
  · rw [hnone]
    simp only [Option.map_none']
    constructor
    · intro h; cases h
    · intro h
      exfalso
      rcases h with ⟨hk, hc, _, _⟩
      exact hall _ (List_getD_mem _ _ _ hk) hc
  · rw [hsome]
    simp only [Option.map_some', Option.some_inj]
    constructor
    · intro h
      rwa [h] at hbest
    · intro h
      exact (is_best_span_unique doc_spans position bi cur_span_index hbest h)

/-- Witness for C4: with Span A `[0,6)`, Span B `[4,9)`, Span C `[7,12)`,
the token at position 8 selects Span C (index 2) and not Span B (index 1). -/
theorem check_is_max_context_witness :
    _check_is_max_context [⟨0, 6⟩, ⟨4, 5⟩, ⟨7, 5⟩] 2 8 = true ∧
    _check_is_max_context [⟨0, 6⟩, ⟨4, 5⟩, ⟨7, 5⟩] 1 8 = false := by
  constructor
  · rw [check_is_max_context_iff]
    refine ⟨by norm_num, ?_, ?_, ?_⟩
    · constructor <;> norm_num [span_end, List.getD_cons_zero, List.getD_cons_succ]
    · intro j hj hcj
      interval_cases j
      · rcases hcj with ⟨h1, h2⟩
        norm_num [span_end, List.getD_cons_zero, List.getD_cons_succ] at h2
      · norm_num [span_score, span_end, List.getD_cons_zero, List.getD_cons_succ] at hcj ⊢
    · intro j hj hcj
      simp only [List.length_cons, List.length_nil] at hj
      interval_cases j
      · rcases hcj with ⟨h1, h2⟩
        norm_num [span_end, List.getD_cons_zero, List.getD_cons_succ] at h2
      · norm_num [span_score, span_end, List.getD_cons_zero, List.getD_cons_succ] at hcj ⊢
      · exact le_refl _
  · have h := (check_is_max_context_iff [⟨0, 6⟩, ⟨4, 5⟩, ⟨7, 5⟩] 1 8).not
    rw [Bool.not_eq_true] at h
    apply h.mpr
    intro hbest
    rcases hbest with ⟨_, _, _, hweak⟩
    have hw := hweak 2 (by norm_num)
      (by constructor <;> norm_num [span_end, List.getD_cons_zero, List.getD_cons_succ])
    norm_num [span_score, span_end, List.getD_cons_zero, List.getD_cons_succ] at hw

/-! ## `_improve_answer_span` -/

/-- `" ".join(doc_tokens[a:(b + 1)])`. -/
def token_span_text (doc_tokens : List String) (a b : Nat) : String :=
  py_join ((doc_tokens.drop a).take (b + 1 - a))

/-- The `(new_start, new_end)` pairs visited by the nested loops of
`_improve_answer_span`, in visit order: starts ascending from `input_start` to
`input_end`, and for each start the ends descending from `input_end` down to
the start. -/
def improve_pairs (input_start input_end : Nat) : List (Nat × Nat) :=
  (List.range' input_start (input_end + 1 - input_start)).flatMap
    (fun new_start =>
      ((List.range' new_start (input_end + 1 - new_start)).reverse).map
        (fun new_end => (new_start, new_end)))

/-- `_improve_answer_span(doc_tokens, input_start, input_end, tokenizer,
orig_answer_text)`; `tokenizer` stands for the external tokenizer's `tokenize`. -/
def _improve_answer_span (doc_tokens : List String) (input_start input_end : Nat)
    (tokenizer : String → List String) (orig_answer_text : String) : Nat × Nat :=
  match (improve_pairs input_start input_end).find?
      (fun p => token_span_text doc_tokens p.1 p.2 == py_join (tokenizer orig_answer_text)) with
  | some p => p
  | none => (input_start, input_end)

/-- Strict visit order on the candidate pairs: earlier start, or same start and
later (larger) end. -/
def improve_lt (q p : Nat × Nat) : Prop :=
  q.1 < p.1 ∨ (q.1 = p.1 ∧ p.2 < q.2)

theorem pairwise_bind_of {α β : Type} (R : β → β → Prop) (S : α → α → Prop)
    (f : α → List β) (l : List α) (hl : l.Pairwise S)
    (hf : ∀ a ∈ l, (f a).Pairwise R)
    (hcross : ∀ a b, S a b → ∀ x ∈ f a, ∀ y ∈ f b, R x y) :
    (l.flatMap f).Pairwise R := by
  induction l with
  | nil => simp
  | cons a l ih =>
    rw [List.flatMap_cons, List.pairwise_append]
    rcases hl with _ | ⟨hS, hl⟩
    refine ⟨hf a (by simp), ih hl (fun b hb => hf b (by simp [hb])), ?_⟩
    intro x hx y hy
    rw [List.mem_flatMap] at hy
    rcases hy with ⟨b, hb, hyb⟩
    exact hcross a b (hS b hb) x hx y hyb

theorem improve_pairs_pairwise (input_start input_end : Nat) :
    (improve_pairs input_start input_end).Pairwise improve_lt := by
  apply pairwise_bind_of improve_lt (· < ·)
  · exact List.pairwise_lt_range' _ _
  · intro a _
    rw [List.pairwise_map]
    apply List.Pairwise.imp (R := (· > ·))
    · intro x y h
      right
      exact ⟨rfl, h⟩
    · rw [List.pairwise_reverse]
      exact (List.pairwise_lt_range' _ _).imp (fun h => h)
  · intro a b hab x hx y hy
    rw [List.mem_map] at hx hy
    rcases hx with ⟨ex, _, hex⟩
    rcases hy with ⟨ey, _, hey⟩
    left
    rw [← hex, ← hey]
    exact hab

theorem improve_pairs_mem (input_start input_end : Nat) (p : Nat × Nat) :
    p ∈ improve_pairs input_start input_end ↔
      input_start ≤ p.1 ∧ p.1 ≤ p.2 ∧ p.2 ≤ input_end := by
  unfold improve_pairs
  rw [List.mem_flatMap]
  constructor
  · rintro ⟨s, hs, hp⟩
    rw [List.mem_map] at hp
    rcases hp with ⟨e, he, hpe⟩
    rw [List.mem_reverse, List.mem_range'] at he
    rw [List.mem_range'] at hs
    rcases hs with ⟨i, hi, hsi⟩
    rcases he with ⟨j, hj, hej⟩
    subst hpe
    simp only
    omega
  · rintro ⟨h1, h2, h3⟩
    refine ⟨p.1, ?_, ?_⟩
    · rw [List.mem_range']
      exact ⟨p.1 - input_start, by omega, by omega⟩
    · rw [List.mem_map]
      refine ⟨p.2, ?_, rfl⟩
      rw [List.mem_reverse, List.mem_range']
      exact ⟨p.2 - p.1, by omega, by omega⟩

/-- C5: `_improve_answer_span` returns the sub-span of
`[input_start, input_end]` whose space-joined tokens equal the space-joined
tokenized gold answer, taking the leftmost matching start and, for that start,
the longest matching end; when no sub-span matches it returns
`(input_start, input_end)` unchanged. -/
theorem improve_answer_span_spec (doc_tokens : List String) (input_start input_end : Nat)
    (tokenizer : String → List String) (orig_answer_text : String) :
    ((∃ s e, input_start ≤ s ∧ s ≤ e ∧ e ≤ input_end ∧
        token_span_text doc_tokens s e = py_join (tokenizer orig_answer_text)) →
      (input_start ≤ (_improve_answer_span doc_tokens input_start input_end tokenizer orig_answer_text).1 ∧
       (_improve_answer_span doc_tokens input_start input_end tokenizer orig_answer_text).1 ≤
         (_improve_answer_span doc_tokens input_start input_end tokenizer orig_answer_text).2 ∧
       (_improve_answer_span doc_tokens input_start input_end tokenizer orig_answer_text).2 ≤ input_end ∧
       token_span_text doc_tokens
         (_improve_answer_span doc_tokens input_start input_end tokenizer orig_answer_text).1
         (_improve_answer_span doc_tokens input_start input_end tokenizer orig_answer_text).2 =
         py_join (tokenizer orig_answer_text) ∧
       (∀ s e, input_start ≤ s → s ≤ e → e ≤ input_end →
         token_span_text doc_tokens s e = py_join (tokenizer orig_answer_text) →
         (_improve_answer_span doc_tokens input_start input_end tokenizer orig_answer_text).1 ≤ s) ∧
       (∀ e, (_improve_answer_span doc_tokens input_start input_end tokenizer orig_answer_text).1 ≤ e →
         e ≤ input_end →
         token_span_text doc_tokens
           (_improve_answer_span doc_tokens input_start input_end tokenizer orig_answer_text).1 e =
           py_join (tokenizer orig_answer_text) →
         e ≤ (_improve_answer_span doc_tokens input_start input_end tokenizer orig_answer_text).2))) ∧
    ((∀ s e, input_start ≤ s → s ≤ e → e ≤ input_end →
        token_span_text doc_tokens s e ≠ py_join (tokenizer orig_answer_text)) →
      _improve_answer_span doc_tokens input_start input_end tokenizer orig_answer_text =
        (input_start, input_end)) := by
  set tok := py_join (tokenizer orig_answer_text) with htok
  set pairs := improve_pairs input_start input_end with hpairs
  constructor
  · rintro ⟨s₀, e₀, hs₀, hse₀, he₀, hm₀⟩
    have hmem₀ : (s₀, e₀) ∈ pairs := by
      rw [hpairs, improve_pairs_mem]
      exact ⟨hs₀, hse₀, he₀⟩
    rcases hr : pairs.find? (fun p => token_span_text doc_tokens p.1 p.2 == tok) with _ | r
    · exfalso
      rw [List.find?_eq_none] at hr
      have h2 := hr _ hmem₀
      simp only [hm₀] at h2
      simp at h2
    · have hres : _improve_answer_span doc_tokens input_start input_end tokenizer orig_answer_text = r := by
        unfold _improve_answer_span
        rw [← htok, ← hpairs, hr]
      rw [hres]
      rcases List.find?_eq_some.mp hr with ⟨hpr, as, bs, hdecomp, has⟩
      have hrmem : r ∈ pairs := by rw [hdecomp]; simp
      have hrrange := (improve_pairs_mem input_start input_end r).mp (hpairs ▸ hrmem)
      have hrmatch : token_span_text doc_tokens r.1 r.2 = tok := by
        simpa using hpr
      have hpw : pairs.Pairwise improve_lt := hpairs ▸ improve_pairs_pairwise input_start input_end
      rw [hdecomp, List.pairwise_append] at hpw
      rcases hpw with ⟨_, hpw2, hpw3⟩
      have hbs : ∀ q ∈ bs, improve_lt r q := by
        intro q hq
        exact (List.pairwise_cons.mp hpw2).1 q hq
      have hloc : ∀ q, q ∈ pairs → token_span_text doc_tokens q.1 q.2 = tok →
          q = r ∨ improve_lt r q := by
        intro q hq hqm
        rw [hdecomp] at hq
        rcases List.mem_append.mp hq with hq | hq
        · exfalso
          have := has q hq
          rw [hqm] at this
          simp at this
        · rcases List.mem_cons.mp hq with hq | hq
          · exact Or.inl hq
          · exact Or.inr (hbs q hq)
      refine ⟨hrrange.1, hrrange.2.1, hrrange.2.2, hrmatch, ?_, ?_⟩
      · intro s e hs hse he hm
        have hqmem : (s, e) ∈ pairs := by
          rw [hpairs, improve_pairs_mem]
          exact ⟨hs, hse, he⟩
        rcases hloc (s, e) hqmem hm with hq | hq
        · rw [← hq]
        · rcases hq with h | ⟨h, _⟩
          · exact le_of_lt h
          · exact le_of_eq h
      · intro e hre he hm
        have hqmem : (r.1, e) ∈ pairs := by
          rw [hpairs, improve_pairs_mem]
          exact ⟨hrrange.1, hre, he⟩
        rcases hloc (r.1, e) hqmem hm with hq | hq
        · rw [Prod.ext_iff] at hq
          exact le_of_eq hq.2
        · rcases hq with h | ⟨_, h⟩
          · exact absurd h (lt_irrefl _)
          · exact le_of_lt h
  · intro hnone
    unfold _improve_answer_span
    rw [← htok, ← hpairs]
    have : pairs.find? (fun p => token_span_text doc_tokens p.1 p.2 == tok) = none := by
      rw [List.find?_eq_none]
      intro p hp
      have hrange := (improve_pairs_mem input_start input_end p).mp (hpairs ▸ hp)
      have := hnone p.1 p.2 hrange.1 hrange.2.1 hrange.2.2
      simpa using this
    rw [this]

/-- Witness for C5: tokens `["(", "1895", "-", "1943", ")", "."]`, annotated
span `[0, 5]`, gold text `"1895"` refine to the single-token span `(1, 1)`. -/
theorem improve_answer_span_witness :
    _improve_answer_span ["(", "1895", "-", "1943", ")", "."] 0 5
      (fun s => [s]) "1895" = (1, 1) ∧
    token_span_text ["(", "1895", "-", "1943", ")", "."]
      (_improve_answer_span ["(", "1895", "-", "1943", ")", "."] 0 5 (fun s => [s]) "1895").1
      (_improve_answer_span ["(", "1895", "-", "1943", ")", "."] 0 5 (fun s => [s]) "1895").2 =
      py_join ((fun s : String => [s]) "1895") := by
  have h := (improve_answer_span_spec ["(", "1895", "-", "1943", ")", "."] 0 5
    (fun s => [s]) "1895").1 ⟨1, 1, by decide, by decide, by decide, by decide⟩
  exact ⟨by decide, h.2.2.2.1⟩

/-! ## `get_final_text` / `nq_get_final_text` -/

/-- `_strip_spaces` recursion: returns the non-space characters and the map
from stripped position to original position (the `OrderedDict` keys are
`0, 1, 2, ...`, so the map is a list indexed by stripped position). -/
def _strip_spaces_go : Nat → List Char → List Char × List Nat
  | _, [] => ([], [])
  | i, c :: rest =>
    let p := _strip_spaces_go (i + 1) rest
    if c = ' ' then p else (c :: p.1, i :: p.2)

/-- `_strip_spaces(text)` (shared by `get_final_text` and `nq_get_final_text`). -/
def _strip_spaces (text : String) : List Char × List Nat :=
  _strip_spaces_go 0 text.toList

/-- `get_final_text(pred_text, orig_text, do_lower_case)`: project the
tokenized prediction back to offsets into the original text; `tokenize` stands
for `tokenization.BasicTokenizer(do_lower_case).tokenize`.  Every failure path
returns `default_out = (0, len(orig_text))`. -/
def get_final_text (tokenize : Bool → String → List String)
    (pred_text orig_text : String) (do_lower_case : Bool) : Nat × Nat :=
  if py_find (py_join (tokenize do_lower_case orig_text)) pred_text = -1 then
    (0, py_len orig_text)
  else if (_strip_spaces orig_text).1.length ≠
      (_strip_spaces (py_join (tokenize do_lower_case orig_text))).1.length then
    (0, py_len orig_text)
  else
    match (_strip_spaces (py_join (tokenize do_lower_case orig_text))).2.findIdx?
        (fun v => (v : Int) == py_find (py_join (tokenize do_lower_case orig_text)) pred_text) with
    | none => (0, py_len orig_text)
    | some ns_start_position =>
      match (_strip_spaces orig_text).2[ns_start_position]? with
      | none => (0, py_len orig_text)
      | some orig_start_position =>
        match (_strip_spaces (py_join (tokenize do_lower_case orig_text))).2.findIdx?
            (fun v => (v : Int) ==
              py_find (py_join (tokenize do_lower_case orig_text)) pred_text
                + py_len pred_text - 1) with
        | none => (0, py_len orig_text)
        | some ns_end_position =>
          match (_strip_spaces orig_text).2[ns_end_position]? with
          | none => (0, py_len orig_text)
          | some orig_end_position => (orig_start_position, orig_end_position + 1)

/-- `nq_get_final_text(pred_text, orig_text, do_lower_case)`: same alignment,
but every failure path returns `orig_text` itself and success returns the
aligned substring of `orig_text`. -/
def nq_get_final_text (tokenize : Bool → String → List String)
    (pred_text orig_text : String) (do_lower_case : Bool) : String :=
  if py_find (py_join (tokenize do_lower_case orig_text)) pred_text = -1 then
    orig_text
  else if (_strip_spaces orig_text).1.length ≠
      (_strip_spaces (py_join (tokenize do_lower_case orig_text))).1.length then
    orig_text
  else
    match (_strip_spaces (py_join (tokenize do_lower_case orig_text))).2.findIdx?
        (fun v => (v : Int) == py_find (py_join (tokenize do_lower_case orig_text)) pred_text) with
    | none => orig_text
    | some ns_start_position =>
      match (_strip_spaces orig_text).2[ns_start_position]? with
      | none => orig_text
      | some orig_start_position =>
        match (_strip_spaces (py_join (tokenize do_lower_case orig_text))).2.findIdx?
            (fun v => (v : Int) ==
              py_find (py_join (tokenize do_lower_case orig_text)) pred_text
                + py_len pred_text - 1) with
        | none => orig_text
        | some ns_end_position =>
          match (_strip_spaces orig_text).2[ns_end_position]? with
          | none => orig_text
          | some orig_end_position => py_slice orig_text orig_start_position (orig_end_position + 1)

/-- A character offset `posn` of the re-tokenized text fails to map back into
the original text: either it is not the original-text offset of any stripped
character of the re-tokenized text, or the corresponding stripped position has
no entry in the original text's stripped-position map. -/
def offset_unmapped (tok_map orig_map : List Nat) (posn : Int) : Prop :=
  match tok_map.findIdx? (fun v => (v : Int) == posn) with
  | none => True
  | some ns => orig_map.length ≤ ns

/-- C6: whenever `pred_text` does not occur in the space-joined re-tokenization
of `orig_text` — and on every other failure path (stripped-length mismatch,
unmapped start offset, unmapped end offset) — `get_final_text` returns the
fallback `(0, len(orig_text))` and `nq_get_final_text` returns `orig_text`
unchanged. -/
theorem get_final_text_fallbacks (tokenize : Bool → String → List String)
    (pred_text orig_text : String) (do_lower_case : Bool) :
    (py_find (py_join (tokenize do_lower_case orig_text)) pred_text = -1 →
      get_final_text tokenize pred_text orig_text do_lower_case = (0, py_len orig_text) ∧
      nq_get_final_text tokenize pred_text orig_text do_lower_case = orig_text) ∧
    ((_strip_spaces orig_text).1.length ≠
        (_strip_spaces (py_join (tokenize do_lower_case orig_text))).1.length →
      get_final_text tokenize pred_text orig_text do_lower_case = (0, py_len orig_text) ∧
      nq_get_final_text tokenize pred_text orig_text do_lower_case = orig_text) ∧
    (offset_unmapped (_strip_spaces (py_join (tokenize do_lower_case orig_text))).2
        (_strip_spaces orig_text).2
        (py_find (py_join (tokenize do_lower_case orig_text)) pred_text) →
      get_final_text tokenize pred_text orig_text do_lower_case = (0, py_len orig_text) ∧
      nq_get_final_text tokenize pred_text orig_text do_lower_case = orig_text) ∧
    (offset_unmapped (_strip_spaces (py_join (tokenize do_lower_case orig_text))).2
        (_strip_spaces orig_text).2
        (py_find (py_join (tokenize do_lower_case orig_text)) pred_text
          + py_len pred_text - 1) →
      get_final_text tokenize pred_text orig_text do_lower_case = (0, py_len orig_text) ∧
      nq_get_final_text tokenize pred_text orig_text do_lower_case = orig_text) := by
  refine ⟨?_, ?_, ?_, ?_⟩
  · intro h
    constructor
    · unfold get_final_text
      rw [if_pos h]
    · unfold nq_get_final_text
      rw [if_pos h]
  · intro h
    by_cases h1 : py_find (py_join (tokenize do_lower_case orig_text)) pred_text = -1
    · constructor
      · unfold get_final_text
        rw [if_pos h1]
      · unfold nq_get_final_text
        rw [if_pos h1]
    · constructor
      · unfold get_final_text
        rw [if_neg h1, if_pos h]
      · unfold nq_get_final_text
        rw [if_neg h1, if_pos h]
  · intro h
    by_cases h1 : py_find (py_join (tokenize do_lower_case orig_text)) pred_text = -1
    · constructor
      · unfold get_final_text
        rw [if_pos h1]
      · unfold nq_get_final_text
        rw [if_pos h1]
    · by_cases h2 : (_strip_spaces orig_text).1.length ≠
          (_strip_spaces (py_join (tokenize do_lower_case orig_text))).1.length
      · constructor
        · unfold get_final_text
          rw [if_neg h1, if_pos h2]
        · unfold nq_get_final_text
          rw [if_neg h1, if_pos h2]
      · unfold offset_unmapped at h
        constructor
        · unfold get_final_text
          rw [if_neg h1, if_neg h2]
          rcases hfi : (_strip_spaces (py_join (tokenize do_lower_case orig_text))).2.findIdx?
              (fun v => (v : Int) ==
                py_find (py_join (tokenize do_lower_case orig_text)) pred_text) with _ | ns
          · simp [hfi]
          · rw [hfi] at h
            simp only [hfi]
            rw [List.getElem?_eq_none h]
        · unfold nq_get_final_text
          rw [if_neg h1, if_neg h2]
          rcases hfi : (_strip_spaces (py_join (tokenize do_lower_case orig_text))).2.findIdx?
              (fun v => (v : Int) ==
                py_find (py_join (tokenize do_lower_case orig_text)) pred_text) with _ | ns
          · simp [hfi]
          · rw [hfi] at h
            simp only [hfi]
            rw [List.getElem?_eq_none h]
  · intro h
    by_cases h1 : py_find (py_join (tokenize do_lower_case orig_text)) pred_text = -1
    · constructor
      · unfold get_final_text
        rw [if_pos h1]
      · unfold nq_get_final_text
        rw [if_pos h1]
    · by_cases h2 : (_strip_spaces orig_text).1.length ≠
          (_strip_spaces (py_join (tokenize do_lower_case orig_text))).1.length
      · constructor
        · unfold get_final_text
          rw [if_neg h1, if_pos h2]
        · unfold nq_get_final_text
          rw [if_neg h1, if_pos h2]
      · unfold offset_unmapped at h
        constructor
        · unfold get_final_text
          rw [if_neg h1, if_neg h2]
          rcases hfi : (_strip_spaces (py_join (tokenize do_lower_case orig_text))).2.findIdx?
              (fun v => (v : Int) ==
                py_find (py_join (tokenize do_lower_case orig_text)) pred_text) with _ | ns
          · simp [hfi]
          · simp only [hfi]
            rcases hgs : (_strip_spaces orig_text).2[ns]? with _ | osp
            · rfl
            · rcases hfe : (_strip_spaces (py_join (tokenize do_lower_case orig_text))).2.findIdx?
                  (fun v => (v : Int) ==
                    py_find (py_join (tokenize do_lower_case orig_text)) pred_text
                      + py_len pred_text - 1) with _ | ne
              · simp [hfe]
              · rw [hfe] at h
                simp only [hfe]
                rw [List.getElem?_eq_none h]
        · unfold nq_get_final_text
          rw [if_neg h1, if_neg h2]
          rcases hfi : (_strip_spaces (py_join (tokenize do_lower_case orig_text))).2.findIdx?
              (fun v => (v : Int) ==
                py_find (py_join (tokenize do_lower_case orig_text)) pred_text) with _ | ns
          · simp [hfi]
          · simp only [hfi]
            rcases hgs : (_strip_spaces orig_text).2[ns]? with _ | osp
            · rfl
            · rcases hfe : (_strip_spaces (py_join (tokenize do_lower_case orig_text))).2.findIdx?
                  (fun v => (v : Int) ==
                    py_find (py_join (tokenize do_lower_case orig_text)) pred_text
                      + py_len pred_text - 1) with _ | ne
              · simp [hfe]
              · rw [hfe] at h
                simp only [hfe]
                rw [List.getElem?_eq_none h]

/-- Witness for C6: `"xyz"` does not occur in the re-tokenization of `"abc"`,
so the span-style alignment returns `(0, 3)` and the text-style alignment
returns `"abc"`. -/
theorem get_final_text_fallbacks_witness :
    get_final_text (fun _ s => [s]) "xyz" "abc" false = (0, py_len "abc") ∧
    nq_get_final_text (fun _ s => [s]) "xyz" "abc" false = "abc" :=
  (get_final_text_fallbacks (fun _ s => [s]) "xyz" "abc" false).1 (by decide)

/-! ## Document Metadata records and `filter_metadata` -/

/-- `np.where(xs > threshold)[0]`: the indices at which `xs` exceeds the
threshold, in increasing order. -/
def np_where_gt (xs : List ℚ) (threshold : ℚ) : List Nat :=
  (List.range xs.length).filter (fun i => threshold < xs.getD i 0)

/-- NumPy fancy row indexing `arr[idxs]` (a copy).  The indices are produced by
`np.where` over a parallel array of the array's length, so they are in bounds
on the modelled domain; `d` is the row default backing `getD`. -/
def np_take {α : Type} (xs : List α) (idxs : List Nat) (d : α) : List α :=
  idxs.map (fun i => xs.getD i d)

/-- Lookup in `end_long2short = {long: short for short, long in enumerate(end_idxs)}`
with the `-1` fallback of the remapping loop: `end_idxs` is strictly increasing,
so the dict maps each retained original end index to its position in `end_idxs`,
and any other value (including `-1`) to `-1`. -/
def end_long2short (end_idxs : List Nat) (long : Int) : Int :=
  if 0 ≤ long then
    match end_idxs.findIdx? (fun v => v == long.toNat) with
    | some short => (short : Int)
    | none => -1
  else -1

/-- The per-document metadata dict assembled by `get_metadata` (and mutated by
`filter_metadata`, which adds the `f2o_start`/`f2o_end` keys — those are
`Option`s that are `none` before filtering). -/
structure Metadata where
  did : Nat
  context : String
  title : String
  start : List (List ℚ)
  end_ : List (List ℚ)
  span_logits : List (List ℚ)
  start2end : List (List Int)
  word2char_start : List Nat
  word2char_end : List Nat
  filter_start : List ℚ
  filter_end : List ℚ
  input_ids : Option (List Int)
  sparse : Option (List (List ℚ))
  sparse_bi : Option (List (List ℚ))
  sparse_tri : Option (List (List ℚ))
  len_per_para : List Nat
  f2o_start : Option (List Nat)
  f2o_end : Option (List Nat)
deriving DecidableEq

/-- `filter_metadata(metadata, threshold)`.  `none` models the `TypeError`
raised by `metadata['sparse'][start_idxs]` when the record carries no unigram
sparse map (`sparse is None`); the partial in-place mutation performed before
that raise never yields a returned record, so only the exception is modelled. -/
def filter_metadata (metadata : Metadata) (threshold : ℚ) : Option Metadata :=
  match metadata.sparse with
  | none => none
  | some sparse =>
    let start_idxs := np_where_gt metadata.filter_start threshold
    let end_idxs := np_where_gt metadata.filter_end threshold
    some { metadata with
      start := np_take metadata.start start_idxs [],
      end_ := np_take metadata.end_ end_idxs [],
      sparse := some (np_take sparse start_idxs []),
      sparse_bi := metadata.sparse_bi.map (fun m => np_take m start_idxs []),
      sparse_tri := metadata.sparse_tri.map (fun m => np_take m start_idxs []),
      f2o_start := some start_idxs,
      f2o_end := some end_idxs,
      span_logits := np_take metadata.span_logits start_idxs [],
      start2end := (np_take metadata.start2end start_idxs []).map
        (fun row => row.map (fun long => end_long2short end_idxs long)) }

theorem findIdx?_lt_length {α : Type} (p : α → Bool) (l : List α) (i : Nat)
    (h : l.findIdx? p = some i) : i < l.length := by
  induction l generalizing i with
  | nil => cases h
  | cons x xs ih =>
    rw [List.findIdx?_cons] at h
    by_cases hp : p x
    · rw [if_pos hp] at h
      cases h
      simp
    · rw [if_neg hp, List.findIdx?_succ] at h
      simp only [Option.map_eq_some'] at h
      rcases h with ⟨j, hj, hji⟩
      have := ih j hj
      simp only [List.length_cons]
      omega

theorem List_getD_map_of_lt {α β : Type} (f : α → β) (l : List α) (d' : β) (d : α) (i : Nat)
    (h : i < l.length) : (l.map f).getD i d' = f (l.getD i d) := by
  rw [List.getD_eq_getElem _ _ (by simpa using h), List.getD_eq_getElem _ _ h, List.getElem_map]

theorem List_getD_of_le {α : Type} (l : List α) (d : α) (i : Nat) (h : l.length ≤ i) :
    l.getD i d = d := by
  induction l generalizing i with
  | nil => cases i <;> rfl
  | cons x xs ih =>
    cases i with
    | zero => simp at h
    | succ n =>
      simp only [List.getD_cons_succ]
      exact ih n (by simpa using h)

theorem findIdx?_eq_rank_of_sorted {l : List Nat} (hl : l.Pairwise (· < ·)) (v : Nat)
    (hv : v ∈ l) : l.findIdx? (fun u => u == v) = some ((l.filter (fun u => u < v)).length) := by
  induction l with
  | nil => cases hv
  | cons x xs ih =>
    rcases hl with _ | ⟨hx, hxs⟩
    rw [List.findIdx?_cons]
    by_cases hxv : x = v
    · subst hxv
      rw [if_pos (by simp)]
      have hfilter : (x :: xs).filter (fun u => decide (u < x)) = [] := by
        rw [List.filter_eq_nil_iff]
        intro u hu
        simp only [decide_eq_true_eq]
        rcases List.mem_cons.mp hu with h | h
        · omega
        · have := hx u h
          omega
      rw [hfilter]
      rfl
    · have hvxs : v ∈ xs := by
        rcases List.mem_cons.mp hv with h | h
        · exact absurd h.symm hxv
        · exact h
      rw [if_neg (by simpa using hxv), List.findIdx?_succ, ih hxs hvxs]
      have hxlt : x < v := hx v hvxs
      rw [List.filter_cons, if_pos (by simpa using hxlt)]
      simp

theorem np_where_gt_pairwise (xs : List ℚ) (t : ℚ) :
    (np_where_gt xs t).Pairwise (· < ·) := by
  unfold np_where_gt
  exact (List.pairwise_lt_range _).filter _

theorem np_where_gt_mem (xs : List ℚ) (t : ℚ) (u : Nat) :
    u ∈ np_where_gt xs t ↔ u < xs.length ∧ t < xs.getD u 0 := by
  unfold np_where_gt
  rw [List.mem_filter, List.mem_range]
  simp

/-- C1: after `filter_metadata`, every entry of the filtered `start2end` table
is `-1` or a valid index into the filtered `end` array, and the entry obtained
from original entry `v` is the compacted position of `v` among the retained end
indices (the number of retained end indices below `v`) when
`filter_end[v] > threshold`, and `-1` otherwise. -/
theorem filter_metadata_start2end_spec (m : Metadata) (t : ℚ) (m' : Metadata)
    (h : filter_metadata m t = some m') :
    (∀ row ∈ m'.start2end, ∀ v ∈ row, v = -1 ∨ (0 ≤ v ∧ v < (m'.end_.length : Int))) ∧
    (∀ i j v, i < (np_where_gt m.filter_start t).length →
      v = ((np_take m.start2end (np_where_gt m.filter_start t) []).getD i []).getD j (-1) →
      (m'.start2end.getD i []).getD j (-1) =
        if 0 ≤ v ∧ v.toNat < m.filter_end.length ∧ t < m.filter_end.getD v.toNat 0
        then (((np_where_gt m.filter_end t).filter (fun u => u < v.toNat)).length : Int)
        else -1) := by
  have hends : ∀ v : Int, end_long2short (np_where_gt m.filter_end t) v =
      if 0 ≤ v ∧ v.toNat < m.filter_end.length ∧ t < m.filter_end.getD v.toNat 0
      then (((np_where_gt m.filter_end t).filter (fun u => u < v.toNat)).length : Int)
      else -1 := by
    intro v
    unfold end_long2short
    by_cases h0 : 0 ≤ v
    · rw [if_pos h0]
      by_cases hmem : v.toNat ∈ np_where_gt m.filter_end t
      · rw [findIdx?_eq_rank_of_sorted (np_where_gt_pairwise m.filter_end t) _ hmem]
        rw [np_where_gt_mem] at hmem
        rw [if_pos ⟨h0, hmem.1, hmem.2⟩]
      · have hfi : (np_where_gt m.filter_end t).findIdx? (fun u => u == v.toNat) = none := by
          rw [List.findIdx?_eq_none_iff]
          intro u hu
          simp only [beq_eq_false_iff_ne, ne_eq]
          intro hvu
          exact hmem (hvu ▸ hu)
        rw [hfi]
        rw [if_neg (by
          rintro ⟨_, h1, h2⟩
          rw [np_where_gt_mem] at hmem
          exact hmem ⟨h1, h2⟩)]
    · rw [if_neg h0, if_neg (by rintro ⟨h1, _⟩; exact h0 h1)]
  have hs2e : m'.start2end = (np_take m.start2end (np_where_gt m.filter_start t) []).map
      (fun row => row.map (fun long => end_long2short (np_where_gt m.filter_end t) long)) := by
    unfold filter_metadata at h
    rcases hsp : m.sparse with _ | sp
    · rw [hsp] at h; cases h
    · rw [hsp] at h
      simp only [Option.some_inj] at h
      rw [← h]
  have hendlen : m'.end_.length = (np_where_gt m.filter_end t).length := by
    unfold filter_metadata at h
    rcases hsp : m.sparse with _ | sp
    · rw [hsp] at h; cases h
    · rw [hsp] at h
      simp only [Option.some_inj] at h
      rw [← h]
      simp [np_take]
  constructor
  · intro row hrow v hv
    rw [hs2e, List.mem_map] at hrow
    rcases hrow with ⟨row₀, _, hrow₀⟩
    rw [← hrow₀, List.mem_map] at hv
    rcases hv with ⟨v₀, _, hv₀⟩
    rw [← hv₀, hends v₀]
    by_cases hc : 0 ≤ v₀ ∧ v₀.toNat < m.filter_end.length ∧ t < m.filter_end.getD v₀.toNat 0
    · right
      rw [if_pos hc]
      constructor
      · positivity
      · rw [hendlen]
        have hmem' : v₀.toNat ∈ np_where_gt m.filter_end t :=
          (np_where_gt_mem m.filter_end t v₀.toNat).mpr ⟨hc.2.1, hc.2.2⟩
        have hlt : ((np_where_gt m.filter_end t).filter (fun u => u < v₀.toNat)).length <
            (np_where_gt m.filter_end t).length := by
          rw [List.length_filter_lt_length_iff_exists]
          exact ⟨v₀.toNat, hmem', by simp⟩
        exact_mod_cast hlt
    · left
      rw [if_neg hc]
  · intro i j v hi hv
    rw [hs2e]
    have hlen : i < (np_take m.start2end (np_where_gt m.filter_start t) []).length := by
      simpa [np_take] using hi
    rw [List_getD_map_of_lt _ _ [] [] i hlen]
    by_cases hj : j < ((np_take m.start2end (np_where_gt m.filter_start t) []).getD i []).length
    · rw [List_getD_map_of_lt _ _ (-1) (-1) j hj, ← hv, hends]
    · have hvd : v = -1 := by
        rw [hv]
        exact List_getD_of_le _ _ _ (Nat.le_of_not_lt hj)
      rw [List_getD_of_le _ _ _ (by simpa using Nat.le_of_not_lt hj), hvd]
      rw [if_neg (by rintro ⟨h0, _⟩; exact absurd h0 (by norm_num))]

/-- C8: `filter_metadata` leaves every field other than `start`, `end`,
`sparse`, `sparse_bi`, `sparse_tri`, `span_logits` and `start2end` unchanged —
in particular `word2char_start`/`word2char_end` keep their full unfiltered
values — and adds `f2o_start`/`f2o_end` (the retained start/end indices). -/
theorem filter_metadata_frame (m : Metadata) (t : ℚ) (m' : Metadata)
    (h : filter_metadata m t = some m') :
    m'.did = m.did ∧ m'.context = m.context ∧ m'.title = m.title ∧
    m'.word2char_start = m.word2char_start ∧ m'.word2char_end = m.word2char_end ∧
    m'.filter_start = m.filter_start ∧ m'.filter_end = m.filter_end ∧
    m'.input_ids = m.input_ids ∧ m'.len_per_para = m.len_per_para ∧
    m'.f2o_start = some (np_where_gt m.filter_start t) ∧
    m'.f2o_end = some (np_where_gt m.filter_end t) := by
  unfold filter_metadata at h
  rcases hsp : m.sparse with _ | sp
  · rw [hsp] at h; cases h
  · rw [hsp] at h
    simp only [Option.some_inj] at h
    rw [← h]
    exact ⟨rfl, rfl, rfl, rfl, rfl, rfl, rfl, rfl, rfl, rfl, rfl⟩

/-- Concrete record used to witness the `filter_metadata` theorems. -/
def metadata_example : Metadata where
  did := 0
  context := "c"
  title := "t"
  start := [[1], [2]]
  end_ := [[10], [20], [30]]
  span_logits := [[0], [0]]
  start2end := [[1, -1], [2, 0]]
  word2char_start := [5, 6]
  word2char_end := [7, 8]
  filter_start := [1, -1]
  filter_end := [-1, 1, 1]
  input_ids := some [3, 4]
  sparse := some [[1], [2]]
  sparse_bi := none
  sparse_tri := none
  len_per_para := [2]
  f2o_start := none
  f2o_end := none

/-- The record `filter_metadata metadata_example 0` produces. -/
def metadata_example_filtered : Metadata where
  did := 0
  context := "c"
  title := "t"
  start := [[1]]
  end_ := [[20], [30]]
  span_logits := [[0]]
  start2end := [[0, -1]]
  word2char_start := [5, 6]
  word2char_end := [7, 8]
  filter_start := [1, -1]
  filter_end := [-1, 1, 1]
  input_ids := some [3, 4]
  sparse := some [[1]]
  sparse_bi := none
  sparse_tri := none
  len_per_para := [2]
  f2o_start := some [0]
  f2o_end := some [1, 2]

/-- Witness for C1: on `metadata_example` at threshold `0`, the surviving
`start2end` row `[1, -1]` is remapped to `[0, -1]` — original end index `1`
passes the filter and lands at compacted position `0`, and `-1` stays `-1`. -/
theorem filter_metadata_start2end_witness :
    ((metadata_example_filtered.start2end.getD 0 []).getD 0 (-1) =
      (((np_where_gt metadata_example.filter_end 0).filter (fun u => u < (1 : Int).toNat)).length : Int)) ∧
    ((metadata_example_filtered.start2end.getD 0 []).getD 1 (-1) = -1) := by
  have h := filter_metadata_start2end_spec metadata_example 0 metadata_example_filtered (by decide)
  constructor
  · have h1 := h.2 0 0 1 (by decide) (by decide)
    rw [h1, if_pos (by refine ⟨by decide, by decide, by decide⟩)]
  · have h2 := h.2 0 1 (-1) (by decide) (by decide)
    rw [h2, if_neg (by rintro ⟨h0, _⟩; exact absurd h0 (by decide))]

/-- Witness for C8 on `metadata_example` at threshold `0`. -/
theorem filter_metadata_frame_witness :
    metadata_example_filtered.word2char_start = metadata_example.word2char_start ∧
    metadata_example_filtered.word2char_end = metadata_example.word2char_end ∧
    metadata_example_filtered.input_ids = metadata_example.input_ids ∧
    metadata_example_filtered.f2o_start = some (np_where_gt metadata_example.filter_start 0) ∧
    metadata_example_filtered.f2o_end = some (np_where_gt metadata_example.filter_end 0) := by
  have h := filter_metadata_frame metadata_example 0 metadata_example_filtered (by decide)
  exact ⟨h.2.2.2.1, h.2.2.2.2.1, h.2.2.2.2.2.2.2.1, h.2.2.2.2.2.2.2.2.2.1, h.2.2.2.2.2.2.2.2.2.2⟩

/-! ## Examples, Features, Results, and `get_metadata` -/

/-- A source document/paragraph example (attributes used by this file). -/
structure Example' where
  qas_id : String
  doc_idx : Nat
  par_idx : Nat
  title : String
  doc_words : List String
  all_answers : List String

/-- A sliding-window Feature (attributes used by this file).  The
`token_to_word_map` and `token_is_max_context` dicts are functions; `none` /
`false` stand for absent keys. -/
structure Feature where
  unique_id : Nat
  example_index : Nat
  doc_span_index : Nat
  paragraph_index : Nat
  tokens : List String
  input_ids : List Int
  token_to_word_map : Nat → Option Nat
  token_is_max_context : Nat → Bool
  doc_tokens : List String

instance : Inhabited Feature :=
  ⟨⟨0, 0, 0, 0, [], [], fun _ => none, fun _ => false, []⟩⟩

/-- The per-n-gram sparse score matrices of a Result (`start_sp` dict with
keys `'1'`, `'2'`, `'3'`). -/
structure StartSp where
  one : Option (List (List ℚ))
  two : Option (List (List ℚ))
  three : Option (List (List ℚ))

/-- A document-side model Result as consumed by `get_metadata`. -/
structure Result where
  unique_id : Nat
  start : List (List ℚ)
  end_ : List (List ℚ)
  span_logits : Nat → Nat → ℚ
  filter_start_logits : List ℚ
  filter_end_logits : List ℚ
  start_sp : Option StartSp

/-- Slice `xs[1 : len(feature.tokens) - 1]` (the feature's interior positions). -/
def interior {α : Type} (feature : Feature) (xs : List α) : List α :=
  (xs.drop 1).take (feature.tokens.length - 2)

/-- Slice `mat[1 : len - 1, 1 : len - 1]` of a sparse matrix. -/
def interior2 (feature : Feature) (mat : List (List ℚ)) : List (List ℚ) :=
  (interior feature mat).map (fun row => (row.drop 1).take (feature.tokens.length - 2))

/-- `get_final_text_(example, feature, start_index, end_index, do_lower_case)`:
de-tokenize the token span, align it against the original words via
`get_final_text`, and return `(full_text, offset + start_pos, offset + end_pos)`
with `offset` the character offset of the span's first original word.
(The `KeyError` on a position absent from `token_to_word_map` is not modelled:
every modelled call site only uses mapped positions.) -/
def get_final_text_ (tokenize : Bool → String → List String) (example_ : Example')
    (feature : Feature) (start_index end_index : Nat) (do_lower_case : Bool) :
    String × Nat × Nat :=
  let tok_tokens := (feature.tokens.drop start_index).take (end_index + 1 - start_index)
  let orig_doc_start := (feature.token_to_word_map start_index).getD 0
  let orig_doc_end := (feature.token_to_word_map end_index).getD 0
  let orig_words := (example_.doc_words.drop orig_doc_start).take (orig_doc_end + 1 - orig_doc_start)
  let tok_text := py_join (py_split (py_strip (py_replace (py_replace (py_join tok_tokens) " ##" "") "##" "")))
  let orig_text := py_join orig_words
  let full_text := py_join example_.doc_words
  let p := get_final_text tokenize tok_text orig_text do_lower_case
  let offset := ((example_.doc_words.take orig_doc_start).map (fun w => py_len w + 1)).sum
  (full_text, offset + p.1, offset + p.2)

/-- One feature's rows of the `span_logits` / `start2end` tables: local token
positions `i ∈ [1, len(tokens) - 2]`, global row index `idx0 + (i - 1)`, row
width `max_answer_length`, cell defaults `0` / `-1`, and
`j ∈ [i, min(i + max_answer_length, len(tokens) - 1))` filled with
`span_logits[i, j]` and `idx + (j - i)`. -/
def span_rows (max_answer_length idx0 : Nat) (feature : Feature) (result : Result) :
    List (List ℚ × List Int) :=
  (List.range' 1 (feature.tokens.length - 2)).map (fun i =>
    let k := min (i + max_answer_length) (feature.tokens.length - 1) - i
    ((List.range max_answer_length).map
       (fun c => if c < k then result.span_logits i (i + c) else 0),
     (List.range max_answer_length).map
       (fun c => if c < k then ((idx0 + (i - 1) + c : Nat) : Int) else -1)))

/-- The full `span_logits` / `start2end` tables, accumulating the global row
index `idx0` across features. -/
def build_span_tables (max_answer_length : Nat) :
    List (Feature × Result) → Nat → List (List ℚ) × List (List Int)
  | [], _ => ([], [])
  | (f, r) :: rest, idx0 =>
    let head := span_rows max_answer_length idx0 f r
    let tail := build_span_tables max_answer_length rest (idx0 + (f.tokens.length - 2))
    (head.map Prod.fst ++ tail.1, head.map Prod.snd ++ tail.2)

/-- The shape of a NumPy 2-D array modelled as a list of rows (arrays are
rectangular, so the first row's length is the column count). -/
def np2_shape (mat : List (List ℚ)) : Nat × Nat :=
  (mat.length, (mat.headD []).length)

/-- A block row written into the zero-initialised map: the row's scores in the
leading columns, zero padding up to the map width. -/
def np_pad_row (width : Nat) (row : List ℚ) : List ℚ :=
  row.take width ++ List.replicate (width - row.length) 0

/-- The sparse-assembly block of `get_metadata` (lines building `input_ids`,
`sparse_map`, `sparse_bi_map`, `sparse_tri_map`, `len_per_para`).  Returns the
five values; `none` models the raises: the `TypeError` when the unigram key is
absent (for the first Result, leaving `sparse_features = None`, or any later
one), and the failed shape/row-count assertions. -/
def get_metadata_sparse (features : List Feature) (pairs : List (Feature × Result))
    (start_rows : Nat) : Option (Option (List Int) × Option (List (List ℚ)) ×
      Option (List (List ℚ)) × Option (List (List ℚ)) × List Nat) :=
  match pairs with
  | [] => none
  | p0 :: _ =>
    match p0.2.start_sp with
    | none => some (none, none, none, none, [])
    | some sp0 =>
      let input_ids := features.flatMap (fun f => interior f f.input_ids)
      match pairs.mapM (fun (p : Feature × Result) => (p.2.start_sp.bind (fun s => s.one)).map (interior2 p.1)) with
      | none => none
      | some sparse_features =>
        let biOpt : Option (Option (List (List (List ℚ)))) :=
          match sp0.two with
          | none => some none
          | some _ =>
            (pairs.mapM (fun (p : Feature × Result) => (p.2.start_sp.bind (fun s => s.two)).map (interior2 p.1))).map some
        let triOpt : Option (Option (List (List (List ℚ)))) :=
          match sp0.three with
          | none => some none
          | some _ =>
            (pairs.mapM (fun (p : Feature × Result) => (p.2.start_sp.bind (fun s => s.three)).map (interior2 p.1))).map some
        match biOpt, triOpt with
        | none, _ => none
        | _, none => none
        | some bi, some tri =>
          let shapes_ok : Option (List (List (List ℚ))) → Bool := fun o =>
            match o with
            | none => true
            | some ms => (sparse_features.zip ms).all
                (fun q => np2_shape q.2 == np2_shape q.1)
          if shapes_ok bi ∧ shapes_ok tri then
            let map_size := (sparse_features.map (fun m => m.length)).foldl max 0
            let blocks := sparse_features.flatMap (fun m => m.map (np_pad_row map_size))
            if input_ids.length = start_rows ∧ blocks.length = input_ids.length then
              some (some input_ids, some blocks,
                bi.map (fun ms => ms.flatMap (fun m => m.map (np_pad_row map_size))),
                tri.map (fun ms => ms.flatMap (fun m => m.map (np_pad_row map_size))),
                sparse_features.map (fun m => m.length))
            else none
          else none

/-- The `word2char` loop of `get_metadata`: walks the features building
`full_text` (appending the previous example's joined words plus the
`" [PAR] "` separator whenever a feature opens a new document) and recording,
for each interior token, its absolute start/end character offsets; also
returns the final `full_text` buffer and the final `prev_example`. -/
def word2char_loop (id2example : Nat → Example') (tokenize : Bool → String → List String)
    (do_lower_case : Bool) :
    List Feature → String → Option Example' → List Nat × List Nat × String × Option Example'
  | [], full_text, prev => ([], [], full_text, prev)
  | f :: rest, full_text, prev =>
    let example_ := id2example f.unique_id
    let full_text' :=
      match prev with
      | some prev_example =>
        if f.doc_span_index = 0 then full_text ++ py_join prev_example.doc_words ++ " [PAR] "
        else full_text
      | none => full_text
    let positions := (List.range' 1 (f.tokens.length - 2)).map (fun i =>
      let sp := (get_final_text_ tokenize example_ f i (min (f.tokens.length - 2) (i + 1))
        do_lower_case).2.1
      let ep := (get_final_text_ tokenize example_ f (max 1 (i - 1)) i do_lower_case).2.2
      (sp + py_len full_text', ep + py_len full_text'))
    let rest_result := word2char_loop id2example tokenize do_lower_case rest full_text' (some example_)
    (positions.map Prod.fst ++ rest_result.1, positions.map Prod.snd ++ rest_result.2.1,
     rest_result.2.2.1, rest_result.2.2.2)

/-- `get_metadata(id2example, features, results, max_answer_length, do_lower_case)`.
`none` models the raises on an empty feature/result stream (`np.concatenate`
of an empty list / `results[0]`) and those of the sparse-assembly block.
(The `word2char` arrays are built from the features' interior token counts;
Result score arrays are aligned with their features on the modelled domain.) -/
def get_metadata (id2example : Nat → Example') (tokenize : Bool → String → List String)
    (features : List Feature) (results : List Result) (max_answer_length : Nat)
    (do_lower_case : Bool) : Option Metadata :=
  if features.isEmpty ∨ results.isEmpty then none
  else
    let pairs := features.zip results
    let start := pairs.flatMap (fun p => interior p.1 p.2.start)
    let end_ := pairs.flatMap (fun p => interior p.1 p.2.end_)
    match get_metadata_sparse features pairs start.length with
    | none => none
    | some (input_ids, sparse_map, sparse_bi_map, sparse_tri_map, len_per_para) =>
      let fs := pairs.flatMap (fun p => interior p.1 p.2.filter_start_logits)
      let fe := pairs.flatMap (fun p => interior p.1 p.2.filter_end_logits)
      let tables := build_span_tables max_answer_length pairs 0
      let w2c := word2char_loop id2example tokenize do_lower_case features "" none
      match w2c.2.2.2 with
      | none => none
      | some prev_example =>
        some {
          did := prev_example.doc_idx,
          context := w2c.2.2.1 ++ py_join prev_example.doc_words,
          title := prev_example.title,
          start := start,
          end_ := end_,
          span_logits := tables.1,
          start2end := tables.2,
          word2char_start := w2c.1,
          word2char_end := w2c.2.1,
          filter_start := fs,
          filter_end := fe,
          input_ids := input_ids,
          sparse := sparse_map,
          sparse_bi := sparse_bi_map,
          sparse_tri := sparse_tri_map,
          len_per_para := len_per_para,
          f2o_start := none,
          f2o_end := none }

theorem word2char_loop_last (id2example : Nat → Example')
    (tokenize : Bool → String → List String) (do_lower_case : Bool) :
    ∀ (fs : List Feature) (full_text : String) (prev : Option Example'),
      (word2char_loop id2example tokenize do_lower_case fs full_text prev).2.2.2 =
        match fs.getLast? with
        | some f => some (id2example f.unique_id)
        | none => prev := by
  intro fs
  induction fs with
  | nil => intro _ _; rfl
  | cons f rest ih =>
    intro full_text prev
    simp only [word2char_loop]
    rw [ih]
    cases rest with
    | nil => rfl
    | cons g grest =>
      rw [List.getLast?_cons_cons]
      rcases hgl : (g :: grest).getLast? with _ | x
      · exact absurd hgl (by simp)
      · rfl

/-- C10: `filter_metadata` is not total over the records the extraction engine
produces: a record built by `get_metadata` from Results with no sparse scores
has `sparse = None`, and `filter_metadata` raises (returns `none`) on it at
every threshold. -/
theorem filter_metadata_not_total (id2example : Nat → Example')
    (tokenize : Bool → String → List String) (features : List Feature)
    (results : List Result) (max_answer_length : Nat) (do_lower_case : Bool)
    (h1 : features ≠ []) (h2 : results ≠ [])
    (h3 : (results.head h2).start_sp = none) :
    ∃ md, get_metadata id2example tokenize features results max_answer_length do_lower_case
        = some md ∧
      md.sparse = none ∧ ∀ t, filter_metadata md t = none := by
  rcases hf : features with _ | ⟨f0, frest⟩
  · exact absurd hf h1
  rcases hr : results with _ | ⟨r0, rrest⟩
  · exact absurd hr h2
  subst hf hr
  simp only [List.head_cons] at h3
  have hsp : get_metadata_sparse (f0 :: frest) ((f0 :: frest).zip (r0 :: rrest))
      ((((f0 :: frest).zip (r0 :: rrest)).flatMap (fun p => interior p.1 p.2.start)).length)
      = some (none, none, none, none, []) := by
    rw [List.zip_cons_cons]
    unfold get_metadata_sparse
    simp [h3]
  have hlast := word2char_loop_last id2example tokenize do_lower_case (f0 :: frest) "" none
  have hex : ∃ ex, (word2char_loop id2example tokenize do_lower_case (f0 :: frest) "" none).2.2.2
      = some ex := by
    rcases hgl : (f0 :: frest).getLast? with _ | x
    · exact absurd hgl (by simp)
    · rw [hlast, hgl]
      exact ⟨_, rfl⟩
  rcases hex with ⟨ex, hex⟩
  unfold get_metadata
  rw [if_neg (by simp)]
  simp only [hsp, hex]
  exact ⟨_, rfl, rfl, fun t => rfl⟩

/-- Concrete example record used by the `get_metadata` witness. -/
def doc_example : Example' where
  qas_id := "q1"
  doc_idx := 0
  par_idx := 0
  title := "t"
  doc_words := ["hello"]
  all_answers := []

/-- Concrete feature used by the `get_metadata` witness. -/
def feature_example : Feature where
  unique_id := 0
  example_index := 0
  doc_span_index := 0
  paragraph_index := 0
  tokens := ["[CLS]", "hello", "[SEP]"]
  input_ids := [101, 7, 102]
  token_to_word_map := fun n => if n = 1 then some 0 else none
  token_is_max_context := fun n => n == 1
  doc_tokens := ["hello"]

/-- Concrete no-sparse-scores result used by the `get_metadata` witness. -/
def result_example : Result where
  unique_id := 0
  start := [[0], [1], [0]]
  end_ := [[0], [1], [0]]
  span_logits := fun _ _ => 0
  filter_start_logits := [0, 1, 0]
  filter_end_logits := [0, 1, 0]
  start_sp := none

/-- Witness for C10 on a one-feature, one-result stream with no sparse scores. -/
theorem filter_metadata_not_total_witness :
    ∃ md, get_metadata (fun _ => doc_example) (fun _ s => [s]) [feature_example]
        [result_example] 10 false = some md ∧
      md.sparse = none ∧ ∀ t, filter_metadata md t = none :=
  filter_metadata_not_total (fun _ => doc_example) (fun _ s => [s]) [feature_example]
    [result_example] 10 false (List.cons_ne_nil _ _) (List.cons_ne_nil _ _) rfl

/-! ## `write_predictions` (span-QA prediction writer) -/

/-- A question-side model Result as consumed by `write_predictions`. -/
structure SpanResult where
  unique_id : Nat
  loss : ℚ
  filter_start_logits : List ℚ
  filter_end_logits : List ℚ
  all_logits : Nat → Nat → ℚ

/-- The `(start_index, end_index)` pairs enumerated by the nested loops:
`start_index ∈ range(num_tokens)`,
`end_index ∈ range(start_index, min(num_tokens, start_index + max_answer_length - 1))`. -/
def candidate_pairs (max_answer_length num_tokens : Nat) : List (Nat × Nat) :=
  (List.range num_tokens).flatMap (fun s =>
    (List.range' s (min num_tokens (s + max_answer_length - 1) - s)).map (fun e => (s, e)))

/-- The admissibility guards of the candidate loop: both indices present in
`token_to_word_map`, `start_index` flagged as max-context, and neither filter
logit below the threshold. -/
def admissible (feature : Feature) (result : SpanResult) (threshold : ℚ) (s e : Nat) : Bool :=
  (feature.token_to_word_map s).isSome && (feature.token_to_word_map e).isSome &&
  feature.token_is_max_context s &&
  !(decide (result.filter_start_logits.getD s 0 < threshold)) &&
  !(decide (result.filter_end_logits.getD e 0 < threshold))

/-- The de-tokenized phrase recorded for a candidate:
`orig_text[start_pos:end_pos]` with `(orig_text, start_pos, end_pos)` from
`get_final_text_`. -/
def candidate_phrase (tokenize : Bool → String → List String) (example_ : Example')
    (feature : Feature) (do_lower_case : Bool) (s e : Nat) : String :=
  let r := get_final_text_ tokenize example_ feature s e do_lower_case
  py_slice r.1 r.2.1 r.2.2

/-- The running `predictions` / `scores` dicts of `write_predictions`. -/
structure PredState where
  predictions : String → Option String
  scores : String → Option ℚ

/-- One candidate's dict update: record the phrase and score when the question
has no score yet or the candidate strictly improves it. -/
def pred_update (id_ : String) (score : ℚ) (phrase : String) (st : PredState) : PredState :=
  match st.scores id_ with
  | none =>
    { predictions := fun k => if k = id_ then some phrase else st.predictions k,
      scores := fun k => if k = id_ then some score else st.scores k }
  | some best =>
    if best < score then
      { predictions := fun k => if k = id_ then some phrase else st.predictions k,
        scores := fun k => if k = id_ then some score else st.scores k }
    else st

/-- The admissible candidates one Result contributes, as
`(question id, score, phrase)` events in visit order. -/
def result_events (id2feature : Nat → Feature) (id2example : Nat → Example')
    (tokenize : Bool → String → List String) (max_answer_length : Nat)
    (do_lower_case : Bool) (threshold : ℚ) (result : SpanResult) :
    List (String × ℚ × String) :=
  (candidate_pairs max_answer_length (id2feature result.unique_id).tokens.length).filterMap
    (fun p =>
      if admissible (id2feature result.unique_id) result threshold p.1 p.2 then
        some ((id2example result.unique_id).qas_id, result.all_logits p.1 p.2,
          candidate_phrase tokenize (id2example result.unique_id)
            (id2feature result.unique_id) do_lower_case p.1 p.2)
      else none)

/-- All events of a results stream, in processing order. -/
def prediction_events (id2feature : Nat → Feature) (id2example : Nat → Example')
    (tokenize : Bool → String → List String) (max_answer_length : Nat)
    (do_lower_case : Bool) (threshold : ℚ) (all_results : List SpanResult) :
    List (String × ℚ × String) :=
  all_results.flatMap
    (result_events id2feature id2example tokenize max_answer_length do_lower_case threshold)

/-- One event's state update. -/
def event_step (st : PredState) (ev : String × ℚ × String) : PredState :=
  pred_update ev.1 ev.2.1 ev.2.2 st

/-- The per-Result body of the `write_predictions` loop: scan the candidate
pairs, apply the guards, and update the dicts on strict improvement. -/
def process_result (id2feature : Nat → Feature) (id2example : Nat → Example')
    (tokenize : Bool → String → List String) (max_answer_length : Nat)
    (do_lower_case : Bool) (threshold : ℚ) (st : PredState) (result : SpanResult) :
    PredState :=
  (candidate_pairs max_answer_length (id2feature result.unique_id).tokens.length).foldl
    (fun st p =>
      if admissible (id2feature result.unique_id) result threshold p.1 p.2 then
        pred_update (id2example result.unique_id).qas_id (result.all_logits p.1 p.2)
          (candidate_phrase tokenize (id2example result.unique_id)
            (id2feature result.unique_id) do_lower_case p.1 p.2) st
      else st) st

/-- `write_predictions(...)`: the final `predictions` dict, the `scores` dict,
the negated-score dict written to the scores file, and the mean loss. -/
def write_predictions (id2feature : Nat → Feature) (id2example : Nat → Example')
    (tokenize : Bool → String → List String) (all_results : List SpanResult)
    (max_answer_length : Nat) (do_lower_case : Bool) (threshold : ℚ) :
    PredState × (String → Option ℚ) × ℚ :=
  let st := all_results.foldl
    (process_result id2feature id2example tokenize max_answer_length do_lower_case threshold)
    ⟨fun _ => none, fun _ => none⟩
  (st, fun k => (st.scores k).map (fun v => -v),
    (all_results.map (fun r => r.loss)).sum / (all_results.length : ℚ))

/-- Spec-side: the admissible candidates a question id accumulates over the
whole results stream, as `(score, phrase)` pairs in processing order. -/
def question_candidates (id2feature : Nat → Feature) (id2example : Nat → Example')
    (tokenize : Bool → String → List String) (max_answer_length : Nat)
    (do_lower_case : Bool) (threshold : ℚ) (all_results : List SpanResult)
    (id_ : String) : List (ℚ × String) :=
  ((prediction_events id2feature id2example tokenize max_answer_length do_lower_case
      threshold all_results).filter (fun ev => ev.1 == id_)).map (fun ev => ev.2)

/-- Running maximum of a score list (`none` on the empty list). -/
def scores_max (l : List ℚ) : Option ℚ :=
  l.foldl (fun acc x => match acc with | none => some x | some m => some (max m x)) none

theorem pred_update_other (id id' : String) (score : ℚ) (phrase : String) (st : PredState)
    (h : id ≠ id') :
    (pred_update id' score phrase st).scores id = st.scores id ∧
    (pred_update id' score phrase st).predictions id = st.predictions id := by
  unfold pred_update
  rcases st.scores id' with _ | best
  · simp [h]
  · by_cases hlt : best < score
    · simp [hlt, h]
    · simp [hlt]

theorem pred_update_self (id : String) (score : ℚ) (phrase : String) (st : PredState) :
    ((st.scores id = none ∧ (pred_update id score phrase st).scores id = some score ∧
        (pred_update id score phrase st).predictions id = some phrase) ∨
     (∃ best, st.scores id = some best ∧
       ((best < score ∧ (pred_update id score phrase st).scores id = some score ∧
           (pred_update id score phrase st).predictions id = some phrase) ∨
        (¬ best < score ∧ pred_update id score phrase st = st)))) := by
  unfold pred_update
  rcases hb : st.scores id with _ | best
  · left
    refine ⟨rfl, ?_, ?_⟩ <;> simp [hb]
  · right
    refine ⟨best, rfl, ?_⟩
    by_cases hlt : best < score
    · left
      refine ⟨hlt, ?_, ?_⟩ <;> simp [hb, hlt]
    · right
      exact ⟨hlt, by simp [hb, hlt]⟩

theorem scores_max_snoc (l : List ℚ) (x : ℚ) :
    scores_max (l ++ [x]) =
      match scores_max l with
      | none => some x
      | some m => some (max m x) := by
  unfold scores_max
  rw [List.foldl_append]
  rfl

theorem foldl_guarded_eq_filterMap {α β : Type} (g : α → Bool) (h : α → β)
    (step : PredState → β → PredState) (l : List α) (st : PredState) :
    l.foldl (fun st a => if g a then step st (h a) else st) st =
      (l.filterMap (fun a => if g a then some (h a) else none)).foldl step st := by
  induction l generalizing st with
  | nil => rfl
  | cons a l ih =>
    by_cases hg : g a
    · simp only [List.foldl_cons, List.filterMap_cons, hg, if_pos]
      exact ih _
    · simp only [List.foldl_cons, List.filterMap_cons, hg, if_neg, Bool.false_eq_true,
        not_false_eq_true]
      exact ih st

theorem foldl_flatMap_eq {α β : Type} (g : α → List β) (step : PredState → β → PredState)
    (l : List α) (st : PredState) :
    l.foldl (fun st a => (g a).foldl step st) st = (l.flatMap g).foldl step st := by
  induction l generalizing st with
  | nil => rfl
  | cons a l ih =>
    rw [List.foldl_cons, List.flatMap_cons, List.foldl_append]
    exact ih _

theorem process_result_eq_events (id2feature : Nat → Feature) (id2example : Nat → Example')
    (tokenize : Bool → String → List String) (max_answer_length : Nat)
    (do_lower_case : Bool) (threshold : ℚ) (st : PredState) (result : SpanResult) :
    process_result id2feature id2example tokenize max_answer_length do_lower_case threshold
        st result =
      (result_events id2feature id2example tokenize max_answer_length do_lower_case threshold
        result).foldl event_step st := by
  unfold process_result result_events
  exact foldl_guarded_eq_filterMap
    (fun p => admissible (id2feature result.unique_id) result threshold p.1 p.2)
    (fun p => ((id2example result.unique_id).qas_id, result.all_logits p.1 p.2,
      candidate_phrase tokenize (id2example result.unique_id)
        (id2feature result.unique_id) do_lower_case p.1 p.2))
    event_step
    (candidate_pairs max_answer_length (id2feature result.unique_id).tokens.length) st

/-- The dict state after the whole loop is the event fold. -/
theorem write_predictions_state_eq (id2feature : Nat → Feature) (id2example : Nat → Example')
    (tokenize : Bool → String → List String) (all_results : List SpanResult)
    (max_answer_length : Nat) (do_lower_case : Bool) (threshold : ℚ) :
    (write_predictions id2feature id2example tokenize all_results max_answer_length
        do_lower_case threshold).1 =
      (prediction_events id2feature id2example tokenize max_answer_length do_lower_case
        threshold all_results).foldl event_step ⟨fun _ => none, fun _ => none⟩ := by
  unfold write_predictions prediction_events
  show List.foldl
    (process_result id2feature id2example tokenize max_answer_length do_lower_case threshold)
    ⟨fun _ => none, fun _ => none⟩ all_results = _
  have hbody : (process_result id2feature id2example tokenize max_answer_length do_lower_case
      threshold) = (fun st r => (result_events id2feature id2example tokenize
        max_answer_length do_lower_case threshold r).foldl event_step st) := by
    funext st r
    exact process_result_eq_events id2feature id2example tokenize max_answer_length
      do_lower_case threshold st r
  rw [hbody]
  exact foldl_flatMap_eq _ _ _ _

/-- Invariant of the event fold: for each id, the score dict holds the running
maximum of that id's event scores, and the prediction dict holds the phrase of
an event attaining it. -/
theorem event_fold_spec (events : List (String × ℚ × String)) (id : String) :
    (((events.filter (fun ev => ev.1 == id)).map (fun ev => ev.2)) = [] →
      ((events.foldl event_step ⟨fun _ => none, fun _ => none⟩).scores id = none ∧
       (events.foldl event_step ⟨fun _ => none, fun _ => none⟩).predictions id = none)) ∧
    (∀ cs, ((events.filter (fun ev => ev.1 == id)).map (fun ev => ev.2)) = cs → cs ≠ [] →
      ∃ m, scores_max (cs.map Prod.fst) = some m ∧
        (events.foldl event_step ⟨fun _ => none, fun _ => none⟩).scores id = some m ∧
        ∃ c ∈ cs, c.1 = m ∧
          (events.foldl event_step ⟨fun _ => none, fun _ => none⟩).predictions id = some c.2) := by
  induction events using List.reverseRecOn with
  | nil =>
    constructor
    · intro _
      exact ⟨rfl, rfl⟩
    · intro cs hcs hne
      exact absurd hcs.symm hne
  | append_singleton es ev ih =>
    rw [List.foldl_append, List.foldl_cons, List.foldl_nil, List.filter_append,
      List.map_append]
    set st := es.foldl event_step ⟨fun _ => none, fun _ => none⟩ with hst
    by_cases hid : ev.1 = id
    · have hfev : List.map (fun ev => ev.2) (List.filter (fun ev => ev.1 == id) [ev])
          = [ev.2] := by
        simp [hid]
      rw [hfev]
      constructor
      · intro hnil
        exfalso
        simpa using congrArg List.length hnil
      · intro cs hcs hne
        have hupd := pred_update_self id ev.2.1 ev.2.2 st
        have hstep_sc : (event_step st ev).scores id = (pred_update id ev.2.1 ev.2.2 st).scores id := by
          unfold event_step
          rw [hid]
        have hstep_pr : (event_step st ev).predictions id
            = (pred_update id ev.2.1 ev.2.2 st).predictions id := by
          unfold event_step
          rw [hid]
        rcases hold : (es.filter (fun ev => ev.1 == id)).map (fun ev => ev.2) with _ | ⟨c0, cold⟩
        · have hsnone := (ih.1) hold
          rcases hupd with ⟨_, hsc, hpr⟩ | ⟨best, hbest, _⟩
          · refine ⟨ev.2.1, ?_, ?_, ev.2, ?_, rfl, ?_⟩
            · rw [← hcs, hold]
              rfl
            · rw [hstep_sc]
              exact hsc
            · rw [← hcs, hold]
              simp
            · rw [hstep_pr]
              exact hpr
          · rw [hbest] at hsnone
            exact absurd hsnone.1 (by simp)
        · rcases (ih.2) (c0 :: cold) hold (by simp) with ⟨m, hmax, hsc, c, hc, hcm, hpred⟩
          have hshape : List.map Prod.fst (c0 :: cold ++ [ev.2])
              = List.map Prod.fst (c0 :: cold) ++ [ev.2.1] := by
            simp
          rcases hupd with ⟨hnone, _, _⟩ | ⟨best, hbest, hcases⟩
          · rw [hnone] at hsc
            cases hsc
          · have hbm : best = m := by
              rw [hbest] at hsc
              injection hsc with hbm
            subst hbm
            rcases hcases with ⟨hlt, hsc2, hpr2⟩ | ⟨hge, heq⟩
            · refine ⟨ev.2.1, ?_, ?_, ev.2, ?_, rfl, ?_⟩
              · rw [← hcs, hold, hshape, scores_max_snoc, hmax]
                show some (max best ev.2.1) = some ev.2.1
                rw [max_eq_right (le_of_lt hlt)]
              · rw [hstep_sc]
                exact hsc2
              · rw [← hcs, hold]
                simp
              · rw [hstep_pr]
                exact hpr2
            · refine ⟨best, ?_, ?_, c, ?_, hcm, ?_⟩
              · rw [← hcs, hold, hshape, scores_max_snoc, hmax]
                show some (max best ev.2.1) = some best
                rw [max_eq_left (le_of_not_lt hge)]
              · rw [hstep_sc, heq]
                exact hsc
              · rw [← hcs, hold]
                exact List.mem_append_left _ hc
              · rw [hstep_pr, heq]
                exact hpred
    · have hfev : List.map (fun ev => ev.2) (List.filter (fun ev => ev.1 == id) [ev])
          = [] := by
        simp only [List.filter_cons, List.filter_nil]
        rw [if_neg (by simpa using hid)]
        rfl
      rw [hfev, List.append_nil]
      have hother := pred_update_other id ev.1 ev.2.1 ev.2.2 st (fun h => hid h.symm)
      have hstep_sc : (event_step st ev).scores id = st.scores id := hother.1
      have hstep_pr : (event_step st ev).predictions id = st.predictions id := hother.2
      constructor
      · intro hnil
        have hih := (ih.1) hnil
        rw [hstep_sc, hstep_pr]
        exact hih
      · intro cs hcs hne
        rcases (ih.2) cs hcs hne with ⟨m, hmax, hsc, c, hc, hcm, hpred⟩
        refine ⟨m, hmax, ?_, c, hc, hcm, ?_⟩
        · rw [hstep_sc]
          exact hsc
        · rw [hstep_pr]
          exact hpred

/-- C3: for every question id with at least one admissible candidate,
`write_predictions` records the de-tokenized phrase of an admissible candidate
attaining the maximal score `all_logits[start, end]`, the scores dict holds
that maximal score, and the scores file maps the id to its negation. -/
theorem write_predictions_best (id2feature : Nat → Feature) (id2example : Nat → Example')
    (tokenize : Bool → String → List String) (all_results : List SpanResult)
    (max_answer_length : Nat) (do_lower_case : Bool) (threshold : ℚ) (id_ : String)
    (h : question_candidates id2feature id2example tokenize max_answer_length do_lower_case
      threshold all_results id_ ≠ []) :
    ∃ m, scores_max ((question_candidates id2feature id2example tokenize max_answer_length
        do_lower_case threshold all_results id_).map Prod.fst) = some m ∧
      (write_predictions id2feature id2example tokenize all_results max_answer_length
        do_lower_case threshold).1.scores id_ = some m ∧
      (∃ c ∈ question_candidates id2feature id2example tokenize max_answer_length
          do_lower_case threshold all_results id_, c.1 = m ∧
        (write_predictions id2feature id2example tokenize all_results max_answer_length
          do_lower_case threshold).1.predictions id_ = some c.2) ∧
      (write_predictions id2feature id2example tokenize all_results max_answer_length
        do_lower_case threshold).2.1 id_ = some (-m) := by
  have hstate := write_predictions_state_eq id2feature id2example tokenize all_results
    max_answer_length do_lower_case threshold
  have hspec := (event_fold_spec (prediction_events id2feature id2example tokenize
    max_answer_length do_lower_case threshold all_results) id_).2
    (question_candidates id2feature id2example tokenize max_answer_length do_lower_case
      threshold all_results id_) rfl h
  rcases hspec with ⟨m, hmax, hsc, c, hc, hcm, hpred⟩
  refine ⟨m, hmax, ?_, ⟨c, hc, hcm, ?_⟩, ?_⟩
  · rw [hstate]
    exact hsc
  · rw [hstate]
    exact hpred
  · show ((write_predictions id2feature id2example tokenize all_results max_answer_length
      do_lower_case threshold).1.scores id_).map (fun v => -v) = some (-m)
    rw [hstate, hsc]
    rfl

/-- Concrete example for the `write_predictions` witness. -/
def wp_example : Example' where
  qas_id := "q1"
  doc_idx := 0
  par_idx := 0
  title := "t"
  doc_words := ["hello", "world"]
  all_answers := []

/-- Concrete feature for the `write_predictions` witness. -/
def wp_feature : Feature where
  unique_id := 7
  example_index := 0
  doc_span_index := 0
  paragraph_index := 0
  tokens := ["[CLS]", "hello", "world", "[SEP]"]
  input_ids := [101, 1, 2, 102]
  token_to_word_map := fun n => if n = 1 then some 0 else if n = 2 then some 1 else none
  token_is_max_context := fun n => n == 1 || n == 2
  doc_tokens := ["hello", "world"]

/-- Concrete result for the `write_predictions` witness: the span `(1, 2)`
scores `5`, every other admissible span scores `1`. -/
def wp_result : SpanResult where
  unique_id := 7
  loss := 0
  filter_start_logits := [0, 1, 1, 0]
  filter_end_logits := [0, 1, 1, 0]
  all_logits := fun s e => if s = 1 && e = 2 then 5 else 1

/-- Witness for C3 on a one-question, one-feature stream. -/
theorem write_predictions_best_witness :
    ∃ m, scores_max ((question_candidates (fun _ => wp_feature) (fun _ => wp_example)
        (fun _ s => [s]) 3 false 0 [wp_result] "q1").map Prod.fst) = some m ∧
      (write_predictions (fun _ => wp_feature) (fun _ => wp_example) (fun _ s => [s])
        [wp_result] 3 false 0).1.scores "q1" = some m ∧
      (∃ c ∈ question_candidates (fun _ => wp_feature) (fun _ => wp_example)
          (fun _ s => [s]) 3 false 0 [wp_result] "q1", c.1 = m ∧
        (write_predictions (fun _ => wp_feature) (fun _ => wp_example) (fun _ s => [s])
          [wp_result] 3 false 0).1.predictions "q1" = some c.2) ∧
      (write_predictions (fun _ => wp_feature) (fun _ => wp_example) (fun _ s => [s])
        [wp_result] 3 false 0).2.1 "q1" = some (-m) :=
  write_predictions_best (fun _ => wp_feature) (fun _ => wp_example) (fun _ s => [s])
    [wp_result] 3 false 0 "q1" (by decide)

/-! ## `write_predictions_nq` (yes/no/span prediction writer) -/

/-- A model Result as consumed by `write_predictions_nq`. -/
structure NqResult where
  unique_id : Nat
  start_logits : List ℚ
  end_logits : List ℚ
  switch : List ℚ

/-- The `_PrelimPrediction` namedtuple. -/
structure PrelimPrediction where
  paragraph_index : Nat
  feature_index : Nat
  start_index : Int
  end_index : Int
  logit : ℚ
  no_answer_logit : ℚ
deriving DecidableEq

/-- The `_NbestPrediction` namedtuple. -/
structure NbestPrediction where
  text : String
  logit : ℚ
  no_answer_logit : ℚ
deriving DecidableEq

/-- `result.switch[3]` (the no-answer logit; every modelled Result carries a
4-element switch vector, so the default is never consulted on that domain). -/
def switch3 (result : NqResult) : ℚ :=
  result.switch.getD 3 0

/-- Stable insertion for Python's `sorted(..., reverse=True)`: the new element
goes before the first position whose key is not greater, so earlier elements
win ties. -/
def py_insert_desc {α : Type} (key : α → ℚ) (x : α) : List α → List α
  | [] => [x]
  | y :: ys => if key x < key y then y :: py_insert_desc key x ys else x :: y :: ys

/-- Python `sorted(l, key=key, reverse=True)` (stable descending). -/
def py_sorted_desc {α : Type} (key : α → ℚ) : List α → List α
  | [] => []
  | x :: xs => py_insert_desc key x (py_sorted_desc key xs)

/-- Stable insertion for Python's ascending `sorted`. -/
def py_insert_asc {α : Type} (key : α → ℚ) (x : α) : List α → List α
  | [] => [x]
  | y :: ys => if key y < key x then y :: py_insert_asc key x ys else x :: y :: ys

/-- Python `sorted(l, key=key)` (stable ascending). -/
def py_sorted_asc {α : Type} (key : α → ℚ) : List α → List α
  | [] => []
  | x :: xs => py_insert_asc key x (py_sorted_asc key xs)

theorem mem_py_insert_desc {α : Type} (key : α → ℚ) (x a : α) (l : List α) :
    a ∈ py_insert_desc key x l ↔ a = x ∨ a ∈ l := by
  induction l with
  | nil => simp [py_insert_desc]
  | cons y ys ih =>
    unfold py_insert_desc
    by_cases h : key x < key y
    · rw [if_pos h]
      simp only [List.mem_cons, ih]
      tauto
    · rw [if_neg h]
      simp only [List.mem_cons]

theorem mem_py_sorted_desc {α : Type} (key : α → ℚ) (a : α) (l : List α) :
    a ∈ py_sorted_desc key l ↔ a ∈ l := by
  induction l with
  | nil => simp [py_sorted_desc]
  | cons x xs ih =>
    unfold py_sorted_desc
    rw [mem_py_insert_desc]
    simp only [List.mem_cons, ih]

theorem mem_py_insert_asc {α : Type} (key : α → ℚ) (x a : α) (l : List α) :
    a ∈ py_insert_asc key x l ↔ a = x ∨ a ∈ l := by
  induction l with
  | nil => simp [py_insert_asc]
  | cons y ys ih =>
    unfold py_insert_asc
    by_cases h : key y < key x
    · rw [if_pos h]
      simp only [List.mem_cons, ih]
      tauto
    · rw [if_neg h]
      simp only [List.mem_cons]

theorem mem_py_sorted_asc {α : Type} (key : α → ℚ) (a : α) (l : List α) :
    a ∈ py_sorted_asc key l ↔ a ∈ l := by
  induction l with
  | nil => simp [py_sorted_asc]
  | cons x xs ih =>
    unfold py_sorted_asc
    rw [mem_py_insert_asc]
    simp only [List.mem_cons, ih]

/-- The `((i, i+j), s+e)` score list of one feature: `i` over the truncated
start logits, `j` over the ten next truncated end logits. -/
def nq_scores (feature : Feature) (result : NqResult) : List ((Nat × Nat) × ℚ) :=
  (result.start_logits.take feature.tokens.length).enum.flatMap (fun p =>
    (((result.end_logits.take feature.tokens.length).drop p.1).take 10).enum.map (fun q =>
      ((p.1, p.1 + q.1), p.2 + q.2)))

/-- The admissibility guards of the candidate walk (`continue` conditions
negated). -/
def nq_keep (feature : Feature) (p : Nat × Nat) : Bool :=
  !(decide (p.1 ≥ feature.tokens.length)) && !(decide (p.2 ≥ feature.tokens.length)) &&
  (feature.token_to_word_map p.1).isSome && (feature.token_to_word_map p.2).isSome &&
  feature.token_is_max_context p.1 && !(decide (p.2 < p.1))

/-- The candidate walk of one feature: append each surviving candidate as a
`PrelimPrediction` with ranking logit `-switch[3]` and no-answer logit
`switch[3]`.  When no paragraph cutoffs were requested the loop breaks once
`n_best_size` predictions are held (in the source the break condition tests
the truthiness of the module-level function `write_predictions` — a slip for
the `write_prediction` flag — so that arm is always live and the `elif` arm is
dead). -/
def nq_collect (feature : Feature) (feature_index : Nat) (result : NqResult)
    (n_best_size : Nat) (mode_none : Bool) :
    List PrelimPrediction → List ((Nat × Nat) × ℚ) → List PrelimPrediction
  | acc, [] => acc
  | acc, c :: cs =>
    if nq_keep feature c.1 then
      let acc' := acc ++ [⟨feature.paragraph_index, feature_index, (c.1.1 : Int), (c.1.2 : Int),
        -(switch3 result), switch3 result⟩]
      if mode_none ∧ n_best_size ≤ acc'.length then acc'
      else nq_collect feature feature_index result n_best_size mode_none acc' cs
    else nq_collect feature feature_index result n_best_size mode_none acc cs

/-- The feature selection of the per-example loop: with no paragraph cutoffs,
only the feature whose result has the lowest no-answer logit (stable ascending
sort of the enumerated features, then `[:1]`); otherwise every enumerated
feature. -/
def nq_selected (features : List Feature) (uid2result : Nat → NqResult)
    (mode_none : Bool) : List (Nat × Feature) :=
  if mode_none then
    (py_sorted_asc (fun p => switch3 (uid2result p.2.unique_id)) features.enum).take 1
  else features.enum

/-- All `PrelimPrediction`s appended for one example, in append order. -/
def nq_prelim_unsorted (features : List Feature) (uid2result : Nat → NqResult)
    (n_best_size : Nat) (mode_none : Bool) : List PrelimPrediction :=
  (nq_selected features uid2result mode_none).foldl
    (fun acc p => nq_collect p.2 p.1 (uid2result p.2.unique_id) n_best_size mode_none acc
      (py_sorted_desc (fun q => q.2) (nq_scores p.2 (uid2result p.2.unique_id))))
    []

/-- The example's prelim predictions after the final
`sorted(..., key logit, reverse=True)`. -/
def nq_prelim_predictions (features : List Feature) (uid2result : Nat → NqResult)
    (n_best_size : Nat) (mode_none : Bool) : List PrelimPrediction :=
  py_sorted_desc (fun p => p.logit) (nq_prelim_unsorted features uid2result n_best_size mode_none)

/-- The detokenized text of a non-sentinel prelim prediction (the `else`
branch of the `get_nbest_json` loop body). -/
def nq_final_text (tokenize : Bool → String → List String) (do_lower_case : Bool)
    (features : List Feature) (pred : PrelimPrediction) : String :=
  let feature := features.getD pred.feature_index default
  let tok_tokens := (feature.tokens.drop pred.start_index.toNat).take
    (pred.end_index.toNat + 1 - pred.start_index.toNat)
  let orig_doc_start := (feature.token_to_word_map pred.start_index.toNat).getD 0
  let orig_doc_end := (feature.token_to_word_map pred.end_index.toNat).getD 0
  let orig_tokens := (feature.doc_tokens.drop orig_doc_start).take
    (orig_doc_end + 1 - orig_doc_start)
  let tok_text := py_join (py_split (py_strip (py_replace (py_replace (py_join tok_tokens)
    " ##" "") "##" "")))
  nq_get_final_text tokenize tok_text (py_join orig_tokens) do_lower_case

/-- The `get_nbest_json` collection loop, up to (and not including) the
softmax step: stop at `n_best_size` entries, map the sentinel spans
`(-1,-1)` / `(-2,-2)` to `"yes"` / `"no"`, detokenize otherwise, and skip
texts found in `seen_predictions` — which the loop never adds to, so the skip
never fires. -/
def nq_nbest_go (tokenize : Bool → String → List String) (do_lower_case : Bool)
    (features : List Feature) (n_best_size : Nat) (no_answer_logit : ℚ)
    (seen : List String) :
    List NbestPrediction → List PrelimPrediction → List NbestPrediction
  | nbest, [] => nbest
  | nbest, pred :: rest =>
    if n_best_size ≤ nbest.length then nbest
    else
      let final_text :=
        if pred.start_index = -1 ∧ pred.end_index = -1 then "yes"
        else if pred.start_index = -2 ∧ pred.end_index = -2 then "no"
        else nq_final_text tokenize do_lower_case features pred
      if final_text ∈ seen then
        nq_nbest_go tokenize do_lower_case features n_best_size no_answer_logit seen nbest rest
      else
        nq_nbest_go tokenize do_lower_case features n_best_size no_answer_logit seen
          (nbest ++ [⟨final_text, pred.logit, no_answer_logit⟩]) rest

/-- The n-best list of one example (the `"empty"` nonce is inserted when no
prediction survived). -/
def nq_nbest (tokenize : Bool → String → List String) (do_lower_case : Bool)
    (features : List Feature) (n_best_size : Nat) (no_answer_logit : ℚ)
    (prelim_predictions : List PrelimPrediction) : List NbestPrediction :=
  if nq_nbest_go tokenize do_lower_case features n_best_size no_answer_logit []
      [] prelim_predictions = [] then
    [⟨"empty", 0, no_answer_logit⟩]
  else
    nq_nbest_go tokenize do_lower_case features n_best_size no_answer_logit []
      [] prelim_predictions

/-- The membership invariant of the candidate walk: every collected prelim is
either inherited from the accumulator or was appended for this feature — with
this feature's index, ranking logit `-switch[3]`, no-answer logit `switch[3]`,
and in-bounds span indices. -/
theorem nq_collect_mem (feature : Feature) (feature_index : Nat) (result : NqResult)
    (n_best_size : Nat) (mode_none : Bool) :
    ∀ (cs : List ((Nat × Nat) × ℚ)) (acc : List PrelimPrediction)
      (p : PrelimPrediction),
      p ∈ nq_collect feature feature_index result n_best_size mode_none acc cs →
      p ∈ acc ∨
        (p.feature_index = feature_index ∧ p.paragraph_index = feature.paragraph_index ∧
         p.logit = -(switch3 result) ∧ p.no_answer_logit = switch3 result ∧
         0 ≤ p.start_index ∧ p.start_index ≤ p.end_index ∧
         p.end_index < (feature.tokens.length : Int)) := by
  intro cs
  induction cs with
  | nil =>
    intro acc p hp
    exact Or.inl hp
  | cons c cs ih =>
    intro acc p hp
    unfold nq_collect at hp
    by_cases hk : nq_keep feature c.1
    · rw [if_pos hk] at hp
      have hkeep := hk
      unfold nq_keep at hkeep
      simp only [Bool.and_eq_true, Bool.not_eq_true', decide_eq_false_iff_not,
        Option.isSome_iff_exists] at hkeep
      have hnew : ∀ q : PrelimPrediction,
          q ∈ acc ++ [⟨feature.paragraph_index, feature_index, (c.1.1 : Int), (c.1.2 : Int),
            -(switch3 result), switch3 result⟩] →
          q ∈ acc ∨
            (q.feature_index = feature_index ∧ q.paragraph_index = feature.paragraph_index ∧
             q.logit = -(switch3 result) ∧ q.no_answer_logit = switch3 result ∧
             0 ≤ q.start_index ∧ q.start_index ≤ q.end_index ∧
             q.end_index < (feature.tokens.length : Int)) := by
        intro q hq
        rcases List.mem_append.mp hq with hq | hq
        · exact Or.inl hq
        · right
          simp only [List.mem_singleton] at hq
          subst hq
          refine ⟨rfl, rfl, rfl, rfl, ?_, ?_, ?_⟩
          · show (0 : Int) ≤ (c.1.1 : Int)
            positivity
          · show (c.1.1 : Int) ≤ (c.1.2 : Int)
            exact_mod_cast Nat.le_of_not_lt hkeep.2
          · show (c.1.2 : Int) < (feature.tokens.length : Int)
            exact_mod_cast Nat.lt_of_not_le hkeep.1.1.1.1.2
      by_cases hbreak : mode_none ∧ n_best_size ≤
          (acc ++ [(⟨feature.paragraph_index, feature_index, (c.1.1 : Int), (c.1.2 : Int),
            -(switch3 result), switch3 result⟩ : PrelimPrediction)]).length
      · rw [if_pos hbreak] at hp
        exact hnew p hp
      · rw [if_neg hbreak] at hp
        rcases ih _ p hp with hin | hprops
        · exact hnew p hin
        · exact Or.inr hprops
    · rw [if_neg hk] at hp
      exact ih acc p hp

/-- Membership through the per-example fold over the selected features. -/
theorem nq_prelim_unsorted_mem (features : List Feature) (uid2result : Nat → NqResult)
    (n_best_size : Nat) (mode_none : Bool) (p : PrelimPrediction)
    (hp : p ∈ nq_prelim_unsorted features uid2result n_best_size mode_none) :
    ∃ q ∈ nq_selected features uid2result mode_none,
      p.feature_index = q.1 ∧ p.paragraph_index = q.2.paragraph_index ∧
      p.logit = -(switch3 (uid2result q.2.unique_id)) ∧
      p.no_answer_logit = switch3 (uid2result q.2.unique_id) ∧
      0 ≤ p.start_index ∧ p.start_index ≤ p.end_index ∧
      p.end_index < (q.2.tokens.length : Int) := by
  unfold nq_prelim_unsorted at hp
  suffices h : ∀ (sel : List (Nat × Feature)) (acc : List PrelimPrediction),
      p ∈ sel.foldl (fun acc q => nq_collect q.2 q.1 (uid2result q.2.unique_id) n_best_size
        mode_none acc (py_sorted_desc (fun s => s.2) (nq_scores q.2 (uid2result q.2.unique_id))))
        acc →
      p ∈ acc ∨ ∃ q ∈ sel, p.feature_index = q.1 ∧ p.paragraph_index = q.2.paragraph_index ∧
        p.logit = -(switch3 (uid2result q.2.unique_id)) ∧
        p.no_answer_logit = switch3 (uid2result q.2.unique_id) ∧
        0 ≤ p.start_index ∧ p.start_index ≤ p.end_index ∧
        p.end_index < (q.2.tokens.length : Int) by
    rcases h (nq_selected features uid2result mode_none) [] hp with h0 | h0
    · cases h0
    · exact h0
  intro sel
  induction sel with
  | nil =>
    intro acc hacc
    exact Or.inl hacc
  | cons q sel ih =>
    intro acc hacc
    rw [List.foldl_cons] at hacc
    rcases ih _ hacc with hin | ⟨q', hq', hprops⟩
    · rcases nq_collect_mem q.2 q.1 (uid2result q.2.unique_id) n_best_size mode_none _ _ _ hin
        with hin' | hprops
      · exact Or.inl hin'
      · right
        exact ⟨q, List.mem_cons_self q sel, hprops.1, hprops.2.1, hprops.2.2.1,
          hprops.2.2.2.1, hprops.2.2.2.2.1, hprops.2.2.2.2.2.1, hprops.2.2.2.2.2.2⟩
    · right
      exact ⟨q', List.mem_cons_of_mem q hq', hprops⟩

theorem nq_selected_mem (features : List Feature) (uid2result : Nat → NqResult)
    (mode_none : Bool) (q : Nat × Feature)
    (hq : q ∈ nq_selected features uid2result mode_none) :
    q.1 < features.length ∧ features.getD q.1 default = q.2 := by
  have henum : q ∈ features.enum := by
    unfold nq_selected at hq
    by_cases hm : mode_none
    · rw [if_pos hm] at hq
      have := List.take_subset 1 _ hq
      rwa [mem_py_sorted_asc] at this
    · rwa [if_neg hm] at hq
  rcases q with ⟨i, f⟩
  have := List.mem_enum henum
  refine ⟨this.1, ?_⟩
  rw [List.getD_eq_getElem _ _ this.1]
  exact this.2.symm

/-- C7: every prelim prediction `write_predictions_nq` appends for a Feature
whose model result is `r` has ranking logit `-r.switch[3]` and no-answer logit
`r.switch[3]`; hence all candidates from the same Feature share one ranking
logit, independent of their local `start+end` score. -/
theorem nq_prelim_logit_spec (features : List Feature) (uid2result : Nat → NqResult)
    (n_best_size : Nat) (mode_none : Bool) :
    ∀ p ∈ nq_prelim_predictions features uid2result n_best_size mode_none,
      (p.logit = -(switch3 (uid2result (features.getD p.feature_index default).unique_id)) ∧
       p.no_answer_logit = switch3 (uid2result (features.getD p.feature_index default).unique_id)) ∧
      ∀ q ∈ nq_prelim_predictions features uid2result n_best_size mode_none,
        q.feature_index = p.feature_index → q.logit = p.logit := by
  have hmain : ∀ p ∈ nq_prelim_predictions features uid2result n_best_size mode_none,
      p.logit = -(switch3 (uid2result (features.getD p.feature_index default).unique_id)) ∧
      p.no_answer_logit = switch3 (uid2result (features.getD p.feature_index default).unique_id) := by
    intro p hp
    rw [nq_prelim_predictions, mem_py_sorted_desc] at hp
    rcases nq_prelim_unsorted_mem features uid2result n_best_size mode_none p hp
      with ⟨q, hq, hfi, _, hlog, hnoans, _⟩
    have hsel := nq_selected_mem features uid2result mode_none q hq
    rw [hfi, hsel.2]
    exact ⟨hlog, hnoans⟩
  intro p hp
  refine ⟨hmain p hp, ?_⟩
  intro q hq hfi
  rw [(hmain q hq).1, (hmain p hp).1, hfi]

/-- C9: every prelim prediction constructed by `write_predictions_nq`
satisfies `0 ≤ start_index ≤ end_index < len(feature.tokens)` — so the
sentinel branches for `(-1,-1)`/`(-2,-2)` and the `end < start` guard are
unreachable — and consequently every n-best entry's text is either the
`"empty"` nonce or the detokenization of some prelim prediction, never a
synthetic `"yes"`/`"no"` from those branches. -/
theorem nq_prelim_bounds_spec (features : List Feature) (uid2result : Nat → NqResult)
    (n_best_size : Nat) (mode_none : Bool) (tokenize : Bool → String → List String)
    (do_lower_case : Bool) (no_answer_logit : ℚ) :
    (∀ p ∈ nq_prelim_predictions features uid2result n_best_size mode_none,
      (0 ≤ p.start_index ∧ p.start_index ≤ p.end_index ∧
        p.end_index < ((features.getD p.feature_index default).tokens.length : Int)) ∧
      ¬(p.start_index = -1 ∧ p.end_index = -1) ∧
      ¬(p.start_index = -2 ∧ p.end_index = -2) ∧
      ¬(p.end_index < p.start_index)) ∧
    (∀ entry ∈ nq_nbest tokenize do_lower_case features n_best_size no_answer_logit
        (nq_prelim_predictions features uid2result n_best_size mode_none),
      entry.text = "empty" ∨
      ∃ p ∈ nq_prelim_predictions features uid2result n_best_size mode_none,
        entry.text = nq_final_text tokenize do_lower_case features p) := by
  have hbounds : ∀ p ∈ nq_prelim_predictions features uid2result n_best_size mode_none,
      0 ≤ p.start_index ∧ p.start_index ≤ p.end_index ∧
      p.end_index < ((features.getD p.feature_index default).tokens.length : Int) := by
    intro p hp
    rw [nq_prelim_predictions, mem_py_sorted_desc] at hp
    rcases nq_prelim_unsorted_mem features uid2result n_best_size mode_none p hp
      with ⟨q, hq, hfi, _, _, _, h0, hse, hel⟩
    have hsel := nq_selected_mem features uid2result mode_none q hq
    rw [hfi, hsel.2]
    exact ⟨h0, hse, hel⟩
  have hgo : ∀ (prelims : List PrelimPrediction)
      (hpre : ∀ p ∈ prelims, 0 ≤ p.start_index)
      (nbest : List NbestPrediction) (entry : NbestPrediction),
      entry ∈ nq_nbest_go tokenize do_lower_case features n_best_size no_answer_logit []
        nbest prelims →
      entry ∈ nbest ∨ ∃ p ∈ prelims, entry.text = nq_final_text tokenize do_lower_case features p := by
    intro prelims
    induction prelims with
    | nil =>
      intro _ nbest entry he
      exact Or.inl he
    | cons pred rest ih =>
      intro hpre nbest entry he
      unfold nq_nbest_go at he
      by_cases hfull : n_best_size ≤ nbest.length
      · rw [if_pos hfull] at he
        exact Or.inl he
      · rw [if_neg hfull] at he
        have h0 : 0 ≤ pred.start_index := hpre pred (List.mem_cons_self pred rest)
        have hs1 : ¬(pred.start_index = -1 ∧ pred.end_index = -1) := by
          rintro ⟨h1, _⟩
          rw [h1] at h0
          exact absurd h0 (by norm_num)
        have hs2 : ¬(pred.start_index = -2 ∧ pred.end_index = -2) := by
          rintro ⟨h1, _⟩
          rw [h1] at h0
          exact absurd h0 (by norm_num)
        rw [if_neg hs1, if_neg hs2] at he
        rw [if_neg (by simp)] at he
        rcases ih (fun p hp => hpre p (List.mem_cons_of_mem pred hp)) _ entry he
          with hin | ⟨p, hp, ht⟩
        · rcases List.mem_append.mp hin with hin | hin
          · exact Or.inl hin
          · simp only [List.mem_singleton] at hin
            subst hin
            exact Or.inr ⟨pred, List.mem_cons_self pred rest, rfl⟩
        · exact Or.inr ⟨p, List.mem_cons_of_mem pred hp, ht⟩
  constructor
  · intro p hp
    rcases hbounds p hp with ⟨h0, hse, hel⟩
    refine ⟨⟨h0, hse, hel⟩, ?_, ?_, ?_⟩
    · rintro ⟨h1, _⟩
      rw [h1] at h0
      exact absurd h0 (by norm_num)
    · rintro ⟨h1, _⟩
      rw [h1] at h0
      exact absurd h0 (by norm_num)
    · intro hlt
      exact absurd hse (not_le.mpr hlt)
  · intro entry he
    unfold nq_nbest at he
    by_cases hnil : nq_nbest_go tokenize do_lower_case features n_best_size no_answer_logit []
        [] (nq_prelim_predictions features uid2result n_best_size mode_none) = []
    · rw [if_pos hnil] at he
      simp only [List.mem_singleton] at he
      subst he
      exact Or.inl rfl
    · rw [if_neg hnil] at he
      rcases hgo _ (fun p hp => (hbounds p hp).1) [] entry he with hin | h
      · cases hin
      · exact Or.inr h

/-- Concrete feature for the `write_predictions_nq` witnesses. -/
def nq_feature : Feature where
  unique_id := 3
  example_index := 0
  doc_span_index := 0
  paragraph_index := 0
  tokens := ["[CLS]", "a", "[SEP]"]
  input_ids := [101, 5, 102]
  token_to_word_map := fun n => if n = 1 then some 0 else none
  token_is_max_context := fun n => n == 1
  doc_tokens := ["a"]

/-- Concrete result for the `write_predictions_nq` witnesses
(no-answer logit `switch[3] = 2`). -/
def nq_result : NqResult where
  unique_id := 3
  start_logits := [0, 1, 0]
  end_logits := [0, 1, 0]
  switch := [0, 0, 0, 2]

theorem nq_example_prelim_eval :
    nq_prelim_predictions [nq_feature] (fun _ => nq_result) 1 true =
      [⟨0, 0, 1, 1, -2, 2⟩] := by
  norm_num [nq_prelim_predictions, nq_prelim_unsorted, nq_selected, nq_collect, nq_keep,
    py_sorted_desc, py_insert_desc, py_sorted_asc, py_insert_asc, nq_scores, switch3,
    nq_feature, nq_result, List.enum, List.enumFrom]

/-- Witness for C7: the single collected candidate has ranking logit
`-switch[3] = -2` and no-answer logit `switch[3] = 2`. -/
theorem nq_prelim_logit_witness :
    ((⟨0, 0, 1, 1, -2, 2⟩ : PrelimPrediction) ∈
      nq_prelim_predictions [nq_feature] (fun _ => nq_result) 1 true) ∧
    (⟨0, 0, 1, 1, -2, 2⟩ : PrelimPrediction).logit =
      -(switch3 ((fun _ => nq_result)
        (([nq_feature].getD (⟨0, 0, 1, 1, -2, 2⟩ : PrelimPrediction).feature_index
          default).unique_id))) ∧
    (⟨0, 0, 1, 1, -2, 2⟩ : PrelimPrediction).no_answer_logit = switch3 nq_result := by
  have hmem : (⟨0, 0, 1, 1, -2, 2⟩ : PrelimPrediction) ∈
      nq_prelim_predictions [nq_feature] (fun _ => nq_result) 1 true := by
    rw [nq_example_prelim_eval]
    exact List.mem_singleton.mpr rfl
  have h := (nq_prelim_logit_spec [nq_feature] (fun _ => nq_result) 1 true _ hmem).1
  exact ⟨hmem, h.1, h.2⟩

/-- Witness for C9: the single collected candidate is in bounds, the sentinel
and `end < start` branches are untaken for it, and the resulting n-best entry
text `"a"` is a detokenization, not a synthetic `"yes"`/`"no"`. -/
theorem nq_prelim_bounds_witness :
    ((⟨0, 0, 1, 1, -2, 2⟩ : PrelimPrediction) ∈
      nq_prelim_predictions [nq_feature] (fun _ => nq_result) 1 true) ∧
    (0 ≤ (⟨0, 0, 1, 1, -2, 2⟩ : PrelimPrediction).start_index ∧
      (⟨0, 0, 1, 1, -2, 2⟩ : PrelimPrediction).start_index ≤
        (⟨0, 0, 1, 1, -2, 2⟩ : PrelimPrediction).end_index ∧
      (⟨0, 0, 1, 1, -2, 2⟩ : PrelimPrediction).end_index <
        (([nq_feature].getD (⟨0, 0, 1, 1, -2, 2⟩ : PrelimPrediction).feature_index
          default).tokens.length : Int)) ∧
    ¬((⟨0, 0, 1, 1, -2, 2⟩ : PrelimPrediction).start_index = -1 ∧
      (⟨0, 0, 1, 1, -2, 2⟩ : PrelimPrediction).end_index = -1) ∧
    ((⟨"a", -2, 2⟩ : NbestPrediction) ∈ nq_nbest (fun _ s => [s]) false [nq_feature] 1 2
      (nq_prelim_predictions [nq_feature] (fun _ => nq_result) 1 true)) ∧
    ((⟨"a", -2, 2⟩ : NbestPrediction).text = "empty" ∨
      ∃ p ∈ nq_prelim_predictions [nq_feature] (fun _ => nq_result) 1 true,
        (⟨"a", -2, 2⟩ : NbestPrediction).text =
          nq_final_text (fun _ s => [s]) false [nq_feature] p) := by
  have hmem : (⟨0, 0, 1, 1, -2, 2⟩ : PrelimPrediction) ∈
      nq_prelim_predictions [nq_feature] (fun _ => nq_result) 1 true := by
    rw [nq_example_prelim_eval]
    exact List.mem_singleton.mpr rfl
  have hspec := nq_prelim_bounds_spec [nq_feature] (fun _ => nq_result) 1 true
    (fun _ s => [s]) false 2
  have h1 := hspec.1 _ hmem
  have hnb : nq_nbest (fun _ s => [s]) false [nq_feature] 1 2
      [(⟨0, 0, 1, 1, -2, 2⟩ : PrelimPrediction)] = [⟨"a", -2, 2⟩] := by decide
  have hmem2 : (⟨"a", -2, 2⟩ : NbestPrediction) ∈ nq_nbest (fun _ s => [s]) false [nq_feature] 1 2
      (nq_prelim_predictions [nq_feature] (fun _ => nq_result) 1 true) := by
    rw [nq_example_prelim_eval, hnb]
    exact List.mem_singleton.mpr rfl
  exact ⟨hmem, h1.1, h1.2.1, hmem2, hspec.2 _ hmem2⟩

end Post
